import Mathlib

/-!
# The Tofita kernel: process table, syscall dispatcher and scheduler hand-off

A shallow embedding of `kernelInit`, `switchToUserProcess` and `kernelThread`
of `src/kernel/tofita.cpp`.

* The global state of the kernel (process table, `pml4kernelThread`, the CR3
  register, `pages::pml4entries`, `process::currentProcess`) is a `Machine`.
* Every effect the embedded code performs is appended, in program order, to a
  trace of `Event`s carried next to the machine in a `World`.
* Functions that the translation unit takes from other files
  (`process.cpp`, `seh.cpp`, `log.cpp`, `userCall.cpp`) are fields of `Env`.
  They get the whole machine and return a whole machine.
* `uint64_t` values are natural numbers below `2 ^ 64`; the two places where
  the code computes with them wrap around explicitly.
-/

namespace Tofita

/-! ## Data model -/

/-- Modelled from the spec: the syscall tag (`TofitaSyscalls`, declared in a
header that is not among the sources). The dispatcher only compares a tag for
equality with `Noop`, `DebugLog`, `ExitProcess` and `Cpu`; every other
enumerator is `Other code`. -/
inductive TofitaSyscalls where
  | Noop
  | DebugLog
  | ExitProcess
  | Cpu
  | Other (code : Nat)
  deriving DecidableEq

/-- Modelled from the spec: the trap frame (`InterruptFrame`, declared in a
header that is not among the sources), with the fields `kernelThread` reads or
writes. -/
structure InterruptFrame where
  rcxArg0 : Nat
  rdxArg1 : Nat
  r8 : Nat
  raxReturn : Nat
  index : Nat
  ip : Nat
  deriving DecidableEq

/-- Modelled from the spec: one slot of the process table (`process::Process`,
declared in a header that is not among the sources), with the fields
`kernelInit` and `kernelThread` read or write. -/
structure Process where
  present : Bool
  schedulable : Bool
  syscallToHandle : TofitaSyscalls
  pml4 : Nat
  frame : InterruptFrame
  cr2PageFaultAddress : Nat
  deriving DecidableEq

/-- Modelled from the spec: the user-memory argument of a `DebugLog` request
(`DebugLogPayload`, declared in a header that is not among the sources). -/
structure DebugLogPayload where
  message : Nat
  extra : Nat
  more : Nat
  deriving DecidableEq

/-- The global variables the embedded functions read or write. -/
structure Machine where
  processes : Nat → Process
  currentProcess : Nat
  pml4kernelThread : Nat
  cr3 : Nat
  pml4entries : Nat

/-- The lines written to the serial log and to the on-screen console. -/
inductive LogLine where
  | debugLogPid (index : Nat)
  | debugLogRegs (rcx rdx r8 : Nat)
  | userMessage (message extra more : Nat)
  | newline
  | exitProcess (index rdx : Nat)
  | cpu (index rdx : Nat)
  | quakeClosed (index vector : Nat)
  | quakePageFault (cr2 : Nat)
  | quakeGeneralProtection (ip : Nat)
  | quakeBreakpoint (ip : Nat)
  | unknownSyscall (index rcx : Nat)
  deriving DecidableEq

/-- The effects of the embedded code, one constructor per kind of statement. -/
inductive Event where
  | capture (index : Nat) (syscall : TofitaSyscalls)
  | storeSyscall (index : Nat) (value : TofitaSyscalls)
  | storeRoot (value : Nat)
  | writeCr3 (value : Nat)
  | log (line : LogLine)
  | probe (address length : Nat) (ok : Bool)
  | readUser (address length : Nat)
  | storePresent (index : Nat) (value : Bool)
  | storeSchedulable (index : Nat) (value : Bool)
  | storeRax (index : Nat) (value : Nat)
  | callDestroy (index : Nat)
  | callUserCall (index : Nat) (syscall : TofitaSyscalls) (handled : Bool)
  | callGetNext (result : Nat)
  | callMarkAll
  | yield
  deriving DecidableEq

/-- The machine together with the effects performed so far, oldest first. -/
structure World where
  m : Machine
  trace : List Event

/-- The functions, constants and sizes that `tofita.cpp` takes from files that
are not among the sources. `probeForReadOkay`, `readPayload` (the content of
the user memory at an address, seen as a `DebugLogPayload`) and `formatBytes`
(the length in bytes, terminator included, of the wide string at an address)
depend on the machine because they go through the active address space.
`Process_destroy` and `userCallHandled` are passed the index of the slot their
`Process *` argument points at. -/
structure Env where
  WholePhysicalStart : Nat
  sizeofDebugLogPayload : Nat
  probeForReadOkay : Machine → Nat → Nat → Bool
  readPayload : Machine → Nat → DebugLogPayload
  formatBytes : Machine → Nat → Nat
  Process_destroy : Nat → Machine → Machine
  userCallHandled : Nat → TofitaSyscalls → Machine → Bool × Machine
  getNextProcess : Machine → Nat × Machine
  markAllProcessessSchedulable : Machine → Machine

/-! ## 64-bit arithmetic -/

/-- The number of `uint64_t` values. -/
def u64 : Nat := 2 ^ 64

/-- Addition of two `uint64_t`. -/
def add64 (a b : Nat) : Nat := (a + b) % u64

/-- Subtraction of two `uint64_t`. -/
def sub64 (a b : Nat) : Nat := (a % u64 + (u64 - b % u64)) % u64

/-! ## Primitive statements -/

/-- Record one effect. -/
def emit (e : Event) (w : World) : World :=
  { w with trace := w.trace ++ [e] }

/-- Assignment through a `Process *` that points at slot `index`. -/
def setProcess (index : Nat) (f : Process → Process) (m : Machine) : Machine :=
  { m with processes := Function.update m.processes index (f (m.processes index)) }

/-- The statement `process->syscallToHandle = value`. -/
def storeSyscall (index : Nat) (value : TofitaSyscalls) (w : World) : World :=
  emit (.storeSyscall index value)
    { w with m := setProcess index (fun p => { p with syscallToHandle := value }) w.m }

/-- The statement `process->present = value`. -/
def storePresent (index : Nat) (value : Bool) (w : World) : World :=
  emit (.storePresent index value)
    { w with m := setProcess index (fun p => { p with present := value }) w.m }

/-- The statement `process->schedulable = value`. -/
def storeSchedulable (index : Nat) (value : Bool) (w : World) : World :=
  emit (.storeSchedulable index value)
    { w with m := setProcess index (fun p => { p with schedulable := value }) w.m }

/-- The statement `frame->raxReturn = value`. -/
def storeRax (index : Nat) (value : Nat) (w : World) : World :=
  emit (.storeRax index value)
    { w with
      m := setProcess index (fun p => { p with frame := { p.frame with raxReturn := value } }) w.m }

/-- The two statements
`pml4kernelThread = root; amd64::writeCr3((uint64_t)pml4kernelThread - (uint64_t)WholePhysicalStart);`. -/
def selectPml4 (env : Env) (root : Nat) (w : World) : World :=
  let w1 := emit (.storeRoot root) { w with m := { w.m with pml4kernelThread := root } }
  let value := sub64 w1.m.pml4kernelThread env.WholePhysicalStart
  emit (.writeCr3 value) { w1 with m := { w1.m with cr3 := value } }

/-- The call `process::Process_destroy(process)`. -/
def callDestroy (env : Env) (index : Nat) (w : World) : World :=
  emit (.callDestroy index) { w with m := env.Process_destroy index w.m }

/-! ## `kernelThread` -/

/-- The `DebugLog` branch (lines 236 to 249). The dereferences of `payload`
(lines 243 and 244) are one read of the structure at `rdxArg1`. The call
`serialPrintf(payload->message, ...)` reads its format string from user
memory: `formatBytes` bytes from `payload->message` on, through the
terminator. -/
def handleDebugLog (env : Env) (index : Nat) (w : World) : World :=
  let frame := (w.m.processes index).frame
  let w1 := emit (.log (.debugLogPid index)) w
  let w2 := emit (.log (.debugLogRegs frame.rcxArg0 frame.rdxArg1 frame.r8)) w1
  let ok1 := env.probeForReadOkay w2.m frame.rdxArg1 env.sizeofDebugLogPayload
  let w3 := emit (.probe frame.rdxArg1 env.sizeofDebugLogPayload ok1) w2
  let w6 :=
    if ok1 = true then
      let payload := env.readPayload w3.m frame.rdxArg1
      let w4 := emit (.readUser frame.rdxArg1 env.sizeofDebugLogPayload) w3
      let ok2 := env.probeForReadOkay w4.m payload.message 1
      let w5 := emit (.probe payload.message 1 ok2) w4
      if ok2 = true then
        emit (.log (.userMessage payload.message payload.extra payload.more))
          (emit (.readUser payload.message (env.formatBytes w5.m payload.message)) w5)
      else w5
    else w3
  storeSchedulable index true (emit (.log .newline) w6)

/-- The `ExitProcess` branch up to, and without, the call of
`Process_destroy`: the log line, `process->present = false`, and the
selection of the idle root. -/
def handleExitProcessPrologue (env : Env) (index : Nat) (w : World) : World :=
  let frame := (w.m.processes index).frame
  let w1 := emit (.log (.exitProcess index frame.rdxArg1)) w
  let w2 := storePresent index false w1
  selectPml4 env (w2.m.processes 0).pml4 w2

/-- The `ExitProcess` branch (lines 250 to 259). -/
def handleExitProcess (env : Env) (index : Nat) (w : World) : World :=
  callDestroy env index (handleExitProcessPrologue env index w)

/-- The `Cpu` branch up to, and without, the call of `Process_destroy`: the
two log lines, `process->present = false`, the diagnostics by vector, and the
selection of the idle root. -/
def handleCpuPrologue (env : Env) (index : Nat) (w : World) : World :=
  let frame := (w.m.processes index).frame
  let w1 := emit (.log (.cpu index frame.rdxArg1)) w
  let w2 := emit (.log (.quakeClosed index frame.index)) w1
  let w3 := storePresent index false w2
  let w4 := if frame.index = 0x0E then
      emit (.log (.quakePageFault (w3.m.processes index).cr2PageFaultAddress)) w3 else w3
  let w5 := if frame.index = 0x0D then emit (.log (.quakeGeneralProtection frame.ip)) w4 else w4
  let w6 := if frame.index = 0x03 then emit (.log (.quakeBreakpoint frame.ip)) w5 else w5
  selectPml4 env (w6.m.processes 0).pml4 w6

/-- The `Cpu` branch (lines 260 to 278). -/
def handleCpu (env : Env) (index : Nat) (w : World) : World :=
  callDestroy env index (handleCpuPrologue env index w)

/-- The statements of the last branch up to, and without, the call of
`userCall::userCallHandled`. -/
def handleOtherPrologue (index : Nat) (w : World) : World :=
  storeRax index 0 w

/-- The last branch (lines 279 to 290). -/
def handleOther (env : Env) (index : Nat) (syscall : TofitaSyscalls) (w : World) : World :=
  let w1 := handleOtherPrologue index w
  let r := env.userCallHandled index syscall w1.m
  let w2 := emit (.callUserCall index syscall r.1) { w1 with m := r.2 }
  if r.1 = false then
    let frame := (w2.m.processes index).frame
    let w3 := emit (.log (.unknownSyscall index frame.rcxArg0)) w2
    let w4 := storeRax index 0 w3
    storeSchedulable index true w4
  else w2

/-- The statements between the test of `syscallToHandle` and the chain of
branches (lines 225 to 232): capture the tag, reset it, select the root of
the process. -/
def enterSlot (env : Env) (index : Nat) (w : World) : World :=
  let syscall := (w.m.processes index).syscallToHandle
  let w1 := emit (.capture index syscall) w
  let w2 := storeSyscall index .Noop w1
  selectPml4 env (w2.m.processes index).pml4 w2

/-- The chain of branches (lines 236 to 291), on the captured tag. -/
def branch (env : Env) (index : Nat) (syscall : TofitaSyscalls) (w : World) : World :=
  if syscall = .DebugLog then handleDebugLog env index w
  else if syscall = .ExitProcess then handleExitProcess env index w
  else if syscall = .Cpu then handleCpu env index w
  else handleOther env index syscall w

/-- The test the scan makes on a slot (lines 223 and 224). -/
def pending (m : Machine) (index : Nat) : Bool :=
  (m.processes index).present == true && (m.processes index).syscallToHandle != .Noop

/-- The body of the inner loop without `index++` (lines 222 to 293). -/
def visit (env : Env) (index : Nat) (w : World) : World :=
  if (w.m.processes index).present = true then
    if (w.m.processes index).syscallToHandle ≠ .Noop then
      branch env index (w.m.processes index).syscallToHandle (enterSlot env index w)
    else w
  else w

/-- The inner loop `while (index < 255) { ...; index++; }` (lines 221 to 295).
`none` when the fuel is used up before the loop ends. -/
def scanLoop (env : Env) : Nat → Nat → World → Option World
  | 0, _, _ => none
  | fuel + 1, index, w =>
    if index < 255 then scanLoop env fuel (index + 1) (visit env index w) else some w

/-- One scan of `kernelThread`: `index = 1`, then the inner loop. The loop
makes 254 turns and one last test, so the fuel 255 is enough
(`scanLoop_eq`). -/
def kernelThreadScan (env : Env) (w : World) : Option World :=
  scanLoop env 255 1 w

/-! ## `switchToUserProcess` -/

/-- The call `getNextProcess()`. -/
def callGetNext (env : Env) (w : World) : Nat × World :=
  let r := env.getNextProcess w.m
  (r.1, emit (.callGetNext r.1) { w with m := r.2 })

/-- The call `markAllProcessessSchedulable()`. -/
def callMarkAll (env : Env) (w : World) : World :=
  emit .callMarkAll { w with m := env.markAllProcessessSchedulable w.m }

/-- The function `switchToUserProcess` (lines 199 to 214), up to and with the
`int $0x81`. The second `if (next == 0)` has an empty body. -/
def switchToUserProcess (env : Env) (w : World) : World :=
  let r1 := callGetNext env w
  let r2 := if r1.1 = 0 then callGetNext env (callMarkAll env r1.2) else r1
  emit .yield r2.2

/-- One turn of the outer `while (true)` of `kernelThread` (lines 218 to 298):
the scan, then `switchToUserProcess()`. -/
def kernelThreadIteration (env : Env) (w : World) : Option World :=
  (kernelThreadScan env w).map (switchToUserProcess env)

/-- The function `kernelThread` (lines 216 to 299) for `turns` turns of its
outer loop, nothing being recorded in the table while the thread has yielded.
`none` when a scan runs out of fuel, which does not happen
(`kernelThread_returns`). -/
def kernelThread (env : Env) : Nat → World → Option World
  | 0, w => some w
  | turns + 1, w => (kernelThreadIteration env w).bind (kernelThread env turns)

/-! ## `kernelInit` -/

/-- Modelled from the spec: the boot parameters (`KernelParams`, declared in
`boot.hpp`, not among the sources); `kernelInit` takes the physical address of
the page-table root from it. -/
structure KernelParams where
  pml4 : Nat

/-- The slot that `memset(&process::processes, 0, sizeof(process::processes))`
leaves: every field zero. `zeroTag` is the enumerator of `TofitaSyscalls`
whose value is zero, which the missing header decides. -/
def zeroProcess (zeroTag : TofitaSyscalls) : Process :=
  { present := false, schedulable := false, syscallToHandle := zeroTag, pml4 := 0,
    frame := { rcxArg0 := 0, rdxArg1 := 0, r8 := 0, raxReturn := 0, index := 0, ip := 0 },
    cr2PageFaultAddress := 0 }

/-- The statements of `kernelInit` that write the machine: line 100 and the
block `// Idle process` (lines 181 to 191). The other statements bring up
devices, the compositor and the two kernel-thread frames; they are given
neither the process table nor `pml4kernelThread`. The CR3 register holds what
the boot loader left in it, `cr3`. -/
def kernelInit (wholePhysicalStart : Nat) (zeroTag : TofitaSyscalls) (cr3 : Nat)
    (params : KernelParams) : Machine :=
  let pml4entries := add64 wholePhysicalStart params.pml4
  let zeroed : Nat → Process := fun _ => zeroProcess zeroTag
  let idle : Process :=
    { zeroed 0 with pml4 := pml4entries, schedulable := true, present := true,
                    syscallToHandle := .Noop }
  let processes := Function.update zeroed 0 idle
  { processes := processes, currentProcess := 0, pml4kernelThread := (processes 0).pml4,
    cr3 := cr3, pml4entries := pml4entries }

/-! ## Auxiliary definitions for the statements -/

/-- The scan unrolled: `n` turns of the inner loop from `index` on. -/
def visitMany (env : Env) : Nat → Nat → World → World
  | 0, _, w => w
  | n + 1, index, w => visitMany env n (index + 1) (visit env index w)

/-- The event is a line for the log sink. -/
def Event.isLog : Event → Bool
  | .log _ => true
  | _ => false

/-- Contract of `Process_destroy` at slot `i`: it releases what slot `i` owns;
it writes no other slot, does not mark slot `i` present again, and leaves
`pml4kernelThread` and the CR3 register alone. -/
def DestroyIsLocal (env : Env) (i : Nat) : Prop :=
  ∀ m : Machine,
    (∀ j, j ≠ i → (env.Process_destroy i m).processes j = m.processes j) ∧
    ((m.processes i).present = false → ((env.Process_destroy i m).processes i).present = false) ∧
    (env.Process_destroy i m).pml4kernelThread = m.pml4kernelThread ∧
    (env.Process_destroy i m).cr3 = m.cr3

/-- The diagnostics the `Cpu` branch prints between `present = false` and the
selection of the idle root. -/
def cpuDiagnostics (p : Process) : List Event :=
  (if p.frame.index = 0x0E then [Event.log (.quakePageFault p.cr2PageFaultAddress)] else []) ++
  (if p.frame.index = 0x0D then [Event.log (.quakeGeneralProtection p.frame.ip)] else []) ++
  (if p.frame.index = 0x03 then [Event.log (.quakeBreakpoint p.frame.ip)] else [])

/-! ## Sample collaborators and tables -/

/-- Modelled from the spec: `getNextProcess` of §4.2 (`process.cpp` is not
among the sources) for a table of `n` slots. It scans the slots
`1 .. n - 1` in rotating order after the cursor for the first one that is
`present && schedulable`, answers `0` (idle) when there is none, and leaves
the cursor, kept in `currentProcess`, on its answer. -/
def specGetNextProcess (n : Nat) (m : Machine) : Nat × Machine :=
  let order := List.range' (m.currentProcess + 1) (n - (m.currentProcess + 1)) ++
    List.range' 1 (min m.currentProcess (n - 1))
  let next := (order.find? fun j => (m.processes j).present && (m.processes j).schedulable).getD 0
  (next, { m with currentProcess := next })

/-- Modelled from the spec: `markAllSchedulable` of §4.2 (`process.cpp` is not
among the sources): it sets `schedulable = true` on every present process. -/
def specMarkAllProcessessSchedulable (m : Machine) : Machine :=
  { m with processes := fun j =>
      if (m.processes j).present = true then { m.processes j with schedulable := true }
      else m.processes j }

/-- Collaborators to run the embedding on concrete tables. The kernel maps
physical memory at `0xFFFF800000000000`; user memory is readable below
`0x8000`; the payload of a `DebugLog` request at `a` holds the message pointer
`a + 0x100`, and the message there takes six bytes (two wide characters
and the terminator); `Process_destroy` gives the root of the slot back;
no extension syscall is handled; the scheduler is the one of the spec for 256
slots. -/
def sampleEnv : Env :=
  { WholePhysicalStart := 0xFFFF800000000000
    sizeofDebugLogPayload := 24
    probeForReadOkay := fun _ a n => decide (a + n ≤ 0x8000)
    readPayload := fun _ a => { message := a + 0x100, extra := 1, more := 2 }
    formatBytes := fun _ _ => 6
    Process_destroy := fun i m => setProcess i (fun p => { p with pml4 := 0 }) m
    userCallHandled := fun _ _ m => (false, m)
    getNextProcess := specGetNextProcess 256
    markAllProcessessSchedulable := specMarkAllProcessessSchedulable }

/-- A trap frame with `rcx` and `rdx` given, 5 left in `raxReturn` and the rest zero. -/
def sampleFrame (rcx rdx : Nat) : InterruptFrame :=
  { rcxArg0 := rcx, rdxArg1 := rdx, r8 := 0, raxReturn := 5, index := 0, ip := 0 }

/-- A present, not schedulable process with a pending request. -/
def sampleProcess (tag : TofitaSyscalls) (rdx : Nat) : Process :=
  { present := true, schedulable := false, syscallToHandle := tag,
    pml4 := 0xFFFF800000200000, frame := sampleFrame 0 rdx, cr2PageFaultAddress := 0 }

/-- The machine `kernelInit` leaves, with one more process `p` in `slot`. -/
def sampleMachine (slot : Nat) (p : Process) : Machine :=
  setProcess slot (fun _ => p) (kernelInit 0xFFFF800000000000 .Noop 0x1000 { pml4 := 0x1000 })

/-- The world that starts at `sampleMachine`. -/
def sampleWorld (slot : Nat) (p : Process) : World :=
  { m := sampleMachine slot p, trace := [] }

/-! ## The effects of a visit, listed -/

/-- The effects of the `DebugLog` branch in world `w`, in program order. -/
def debugLogEvents (env : Env) (index : Nat) (w : World) : List Event :=
  let frame := (w.m.processes index).frame
  let ok1 := env.probeForReadOkay w.m frame.rdxArg1 env.sizeofDebugLogPayload
  let payload := env.readPayload w.m frame.rdxArg1
  let ok2 := env.probeForReadOkay w.m payload.message 1
  [.log (.debugLogPid index), .log (.debugLogRegs frame.rcxArg0 frame.rdxArg1 frame.r8),
   .probe frame.rdxArg1 env.sizeofDebugLogPayload ok1] ++
  (if ok1 = true then
    [.readUser frame.rdxArg1 env.sizeofDebugLogPayload, .probe payload.message 1 ok2] ++
    (if ok2 = true then
      [.readUser payload.message (env.formatBytes w.m payload.message),
       .log (.userMessage payload.message payload.extra payload.more)]
    else [])
  else []) ++
  [.log .newline, .storeSchedulable index true]

/-- The effects of the `ExitProcess` branch in world `w`, in program order. -/
def exitProcessEvents (env : Env) (index : Nat) (w : World) : List Event :=
  [.log (.exitProcess index (w.m.processes index).frame.rdxArg1), .storePresent index false,
   .storeRoot (w.m.processes 0).pml4,
   .writeCr3 (sub64 (w.m.processes 0).pml4 env.WholePhysicalStart), .callDestroy index]

/-- The effects of the `Cpu` branch in world `w`, in program order. -/
def cpuEvents (env : Env) (index : Nat) (w : World) : List Event :=
  [.log (.cpu index (w.m.processes index).frame.rdxArg1),
   .log (.quakeClosed index (w.m.processes index).frame.index), .storePresent index false] ++
  cpuDiagnostics (w.m.processes index) ++
  [.storeRoot (w.m.processes 0).pml4,
   .writeCr3 (sub64 (w.m.processes 0).pml4 env.WholePhysicalStart), .callDestroy index]

/-- The machine in which the last branch calls `userCallHandled`. -/
def userCallMachine (index : Nat) (w : World) : Machine :=
  (handleOtherPrologue index w).m

/-- The effects of the last branch in world `w`, in program order. -/
def otherEvents (env : Env) (index : Nat) (syscall : TofitaSyscalls) (w : World) : List Event :=
  let r := env.userCallHandled index syscall (userCallMachine index w)
  [.storeRax index 0, .callUserCall index syscall r.1] ++
  (if r.1 = false then
    [.log (.unknownSyscall index (r.2.processes index).frame.rcxArg0), .storeRax index 0,
     .storeSchedulable index true]
  else [])

/-- The effects of the chain of branches on the captured tag. -/
def branchEvents (env : Env) (index : Nat) (syscall : TofitaSyscalls) (w : World) : List Event :=
  if syscall = .DebugLog then debugLogEvents env index w
  else if syscall = .ExitProcess then exitProcessEvents env index w
  else if syscall = .Cpu then cpuEvents env index w
  else otherEvents env index syscall w

/-- The effects of entering a slot. -/
def enterEvents (env : Env) (index : Nat) (w : World) : List Event :=
  [.capture index (w.m.processes index).syscallToHandle, .storeSyscall index .Noop,
   .storeRoot (w.m.processes index).pml4,
   .writeCr3 (sub64 (w.m.processes index).pml4 env.WholePhysicalStart)]

/-- The effects of one visit. -/
def visitEvents (env : Env) (index : Nat) (w : World) : List Event :=
  if pending w.m index = true then
    enterEvents env index w ++
      branchEvents env index (w.m.processes index).syscallToHandle (enterSlot env index w)
  else []

/-- The effects of `n` turns of the inner loop from `index` on. -/
def visitManyEvents (env : Env) : Nat → Nat → World → List Event
  | 0, _, _ => []
  | n + 1, index, w =>
    visitEvents env index w ++ visitManyEvents env n (index + 1) (visit env index w)

/-- Every `writeCr3 v` in the list comes right after a `storeRoot r` with
`v = r - wps` in 64-bit arithmetic. `prev` is the root stored by the effect
just before the list, if that effect was a `storeRoot`. -/
def cr3Follows (wps : Nat) : Option Nat → List Event → Prop
  | _, [] => True
  | _, .storeRoot r :: rest => cr3Follows wps (some r) rest
  | prev, .writeCr3 v :: rest => (∃ r, prev = some r ∧ v = sub64 r wps) ∧ cr3Follows wps none rest
  | _, _ :: rest => cr3Follows wps none rest

/-- Address `a` lies in a range that a probe in `seen` found readable. -/
def probedOk (seen : List Event) (a : Nat) : Bool :=
  seen.any fun e =>
    match e with
    | .probe address length true => decide (address ≤ a) && decide (a < address + length)
    | _ => false

/-- Every byte of every `readUser` in `rest` lies in a range found readable by
a probe that comes before that read; `seen` are the effects before `rest`. -/
def readsProbed : List Event → List Event → Bool
  | _, [] => true
  | seen, .readUser a n :: rest =>
    (List.range n).all (fun k => probedOk seen (a + k)) &&
      readsProbed (seen ++ [.readUser a n]) rest
  | seen, e :: rest => readsProbed (seen ++ [e]) rest

/-- What an effect writes: a slot of the process table (a call that is passed
a slot counts as a write to it), `pml4kernelThread`, the CR3 register, nothing
of the kernel state, or whatever the scheduler functions write. -/
inductive Target where
  | slot (index : Nat)
  | root
  | cr3
  | nothing
  | scheduler
  deriving DecidableEq

/-- The target of an effect. -/
def Event.target : Event → Target
  | .capture _ _ => .nothing
  | .storeSyscall i _ => .slot i
  | .storeRoot _ => .root
  | .writeCr3 _ => .cr3
  | .log _ => .nothing
  | .probe _ _ _ => .nothing
  | .readUser _ _ => .nothing
  | .storePresent i _ => .slot i
  | .storeSchedulable i _ => .slot i
  | .storeRax i _ => .slot i
  | .callDestroy i => .slot i
  | .callUserCall i _ _ => .slot i
  | .callGetNext _ => .scheduler
  | .callMarkAll => .scheduler
  | .yield => .scheduler

/-- The effect writes nothing of the process table outside slot `i`. -/
def Event.localTo (i : Nat) (e : Event) : Prop :=
  e.target = .slot i ∨ e.target = .root ∨ e.target = .cr3 ∨ e.target = .nothing

/-- Slot 0, the idle process, is present and schedulable. -/
def IdleReady (m : Machine) : Prop :=
  (m.processes 0).present = true ∧ (m.processes 0).schedulable = true

/-- Contract of the collaborators towards slot 0: called for another slot, or
as scheduler functions, they leave the idle process present and schedulable. -/
def KeepsIdleReady (env : Env) : Prop :=
  (∀ i m, i ≠ 0 → IdleReady m → IdleReady (env.Process_destroy i m)) ∧
  (∀ i t m, i ≠ 0 → IdleReady m → IdleReady (env.userCallHandled i t m).2) ∧
  (∀ m, IdleReady m → IdleReady (env.getNextProcess m).2) ∧
  (∀ m, IdleReady m → IdleReady (env.markAllProcessessSchedulable m))

/-- The sample collaborators with other scheduler functions. -/
def withScheduler (env : Env) (getNext : Machine → Nat × Machine) (markAll : Machine → Machine) :
    Env :=
  { WholePhysicalStart := env.WholePhysicalStart
    sizeofDebugLogPayload := env.sizeofDebugLogPayload
    probeForReadOkay := env.probeForReadOkay
    readPayload := env.readPayload
    formatBytes := env.formatBytes
    Process_destroy := env.Process_destroy
    userCallHandled := env.userCallHandled
    getNextProcess := getNext
    markAllProcessessSchedulable := markAll }

/-- A table of 256 slots, the idle process in slot 0 and a present, not
schedulable process with no pending request in each of the slots 1 to 255. -/
def crowdedMachine : Machine :=
  { processes := fun j =>
      if j = 0 then
        { present := true, schedulable := true, syscallToHandle := .Noop,
          pml4 := 0xFFFF800000001000, frame := sampleFrame 0 0, cr2PageFaultAddress := 0 }
      else sampleProcess .Noop 0
    currentProcess := 0
    pml4kernelThread := 0xFFFF800000001000
    cr3 := 0x1000
    pml4entries := 0xFFFF800000001000 }

/-- The slots whose tag the effects capture, in the order of the captures:
the slots that are handled. -/
def capturedSlots (l : List Event) : List Nat :=
  l.filterMap fun e =>
    match e with
    | .capture i _ => some i
    | _ => none

/-- Contract "the collaborators do not write `syscallToHandle`", of any slot. -/
def KeepsSyscall (env : Env) : Prop :=
  (∀ i m j, ((env.Process_destroy i m).processes j).syscallToHandle =
    (m.processes j).syscallToHandle) ∧
  (∀ i t m j, ((env.userCallHandled i t m).2.processes j).syscallToHandle =
    (m.processes j).syscallToHandle) ∧
  (∀ m j, ((env.getNextProcess m).2.processes j).syscallToHandle =
    (m.processes j).syscallToHandle) ∧
  (∀ m j, ((env.markAllProcessessSchedulable m).processes j).syscallToHandle =
    (m.processes j).syscallToHandle)

/-- Contract "no new trap is recorded": a slot that is pending when a
collaborator returns was pending when it was called. -/
def RecordsNoRequest (env : Env) : Prop :=
  (∀ i m j, pending (env.Process_destroy i m) j = true → pending m j = true) ∧
  (∀ i t m j, pending (env.userCallHandled i t m).2 j = true → pending m j = true) ∧
  (∀ m j, pending (env.getNextProcess m).2 j = true → pending m j = true) ∧
  (∀ m j, pending (env.markAllProcessessSchedulable m) j = true → pending m j = true)

/-! ## Basic facts -/

@[simp] theorem emit_m (e : Event) (w : World) : (emit e w).m = w.m := rfl

@[simp] theorem emit_trace (e : Event) (w : World) : (emit e w).trace = w.trace ++ [e] := rfl

@[simp] theorem setProcess_same (i : Nat) (f : Process → Process) (m : Machine) :
    (setProcess i f m).processes i = f (m.processes i) := by
  simp [setProcess]

theorem setProcess_other (i j : Nat) (f : Process → Process) (m : Machine) (h : j ≠ i) :
    (setProcess i f m).processes j = m.processes j := by
  simp [setProcess, Function.update_noteq h]

@[simp] theorem setProcess_root (i : Nat) (f : Process → Process) (m : Machine) :
    (setProcess i f m).pml4kernelThread = m.pml4kernelThread := rfl

@[simp] theorem setProcess_cr3 (i : Nat) (f : Process → Process) (m : Machine) :
    (setProcess i f m).cr3 = m.cr3 := rfl

theorem setProcess_pml4 (i j : Nat) (f : Process → Process) (m : Machine)
    (hf : ∀ p, (f p).pml4 = p.pml4) : ((setProcess i f m).processes j).pml4 = (m.processes j).pml4 := by
  by_cases h : j = i
  · subst h; simp [hf]
  · rw [setProcess_other _ _ _ _ h]

/-! ### The four stores and the root selection -/

@[simp] theorem storeSyscall_trace (i : Nat) (v : TofitaSyscalls) (w : World) :
    (storeSyscall i v w).trace = w.trace ++ [.storeSyscall i v] := rfl

@[simp] theorem storePresent_trace (i : Nat) (v : Bool) (w : World) :
    (storePresent i v w).trace = w.trace ++ [.storePresent i v] := rfl

@[simp] theorem storeSchedulable_trace (i : Nat) (v : Bool) (w : World) :
    (storeSchedulable i v w).trace = w.trace ++ [.storeSchedulable i v] := rfl

@[simp] theorem storeRax_trace (i v : Nat) (w : World) :
    (storeRax i v w).trace = w.trace ++ [.storeRax i v] := rfl

@[simp] theorem storeSyscall_same (i : Nat) (v : TofitaSyscalls) (w : World) :
    (storeSyscall i v w).m.processes i = { w.m.processes i with syscallToHandle := v } := by
  simp [storeSyscall]

@[simp] theorem storePresent_same (i : Nat) (v : Bool) (w : World) :
    (storePresent i v w).m.processes i = { w.m.processes i with present := v } := by
  simp [storePresent]

@[simp] theorem storeSchedulable_same (i : Nat) (v : Bool) (w : World) :
    (storeSchedulable i v w).m.processes i = { w.m.processes i with schedulable := v } := by
  simp [storeSchedulable]

@[simp] theorem storeRax_same (i v : Nat) (w : World) :
    (storeRax i v w).m.processes i =
      { w.m.processes i with frame := { (w.m.processes i).frame with raxReturn := v } } := by
  simp [storeRax]

theorem storeSyscall_other (i j : Nat) (v : TofitaSyscalls) (w : World) (h : j ≠ i) :
    (storeSyscall i v w).m.processes j = w.m.processes j := by
  simp [storeSyscall, setProcess_other _ _ _ _ h]

theorem storePresent_other (i j : Nat) (v : Bool) (w : World) (h : j ≠ i) :
    (storePresent i v w).m.processes j = w.m.processes j := by
  simp [storePresent, setProcess_other _ _ _ _ h]

theorem storeSchedulable_other (i j : Nat) (v : Bool) (w : World) (h : j ≠ i) :
    (storeSchedulable i v w).m.processes j = w.m.processes j := by
  simp [storeSchedulable, setProcess_other _ _ _ _ h]

theorem storeRax_other (i j v : Nat) (w : World) (h : j ≠ i) :
    (storeRax i v w).m.processes j = w.m.processes j := by
  simp [storeRax, setProcess_other _ _ _ _ h]

@[simp] theorem storeSyscall_pml4 (i j : Nat) (v : TofitaSyscalls) (w : World) :
    ((storeSyscall i v w).m.processes j).pml4 = (w.m.processes j).pml4 := by
  simp [storeSyscall, setProcess_pml4]

@[simp] theorem storePresent_pml4 (i j : Nat) (v : Bool) (w : World) :
    ((storePresent i v w).m.processes j).pml4 = (w.m.processes j).pml4 := by
  simp [storePresent, setProcess_pml4]

@[simp] theorem storeSchedulable_pml4 (i j : Nat) (v : Bool) (w : World) :
    ((storeSchedulable i v w).m.processes j).pml4 = (w.m.processes j).pml4 := by
  simp [storeSchedulable, setProcess_pml4]

@[simp] theorem storeRax_pml4 (i j v : Nat) (w : World) :
    ((storeRax i v w).m.processes j).pml4 = (w.m.processes j).pml4 := by
  simp [storeRax, setProcess_pml4]

@[simp] theorem storeSyscall_root (i : Nat) (v : TofitaSyscalls) (w : World) :
    (storeSyscall i v w).m.pml4kernelThread = w.m.pml4kernelThread := rfl

@[simp] theorem storePresent_root (i : Nat) (v : Bool) (w : World) :
    (storePresent i v w).m.pml4kernelThread = w.m.pml4kernelThread := rfl

@[simp] theorem storeSchedulable_root (i : Nat) (v : Bool) (w : World) :
    (storeSchedulable i v w).m.pml4kernelThread = w.m.pml4kernelThread := rfl

@[simp] theorem storeRax_root (i v : Nat) (w : World) :
    (storeRax i v w).m.pml4kernelThread = w.m.pml4kernelThread := rfl

@[simp] theorem storeSyscall_cr3 (i : Nat) (v : TofitaSyscalls) (w : World) :
    (storeSyscall i v w).m.cr3 = w.m.cr3 := rfl

@[simp] theorem storePresent_cr3 (i : Nat) (v : Bool) (w : World) :
    (storePresent i v w).m.cr3 = w.m.cr3 := rfl

@[simp] theorem storeSchedulable_cr3 (i : Nat) (v : Bool) (w : World) :
    (storeSchedulable i v w).m.cr3 = w.m.cr3 := rfl

@[simp] theorem storeRax_cr3 (i v : Nat) (w : World) :
    (storeRax i v w).m.cr3 = w.m.cr3 := rfl

@[simp] theorem selectPml4_processes (env : Env) (root : Nat) (w : World) :
    (selectPml4 env root w).m.processes = w.m.processes := rfl

@[simp] theorem selectPml4_root (env : Env) (root : Nat) (w : World) :
    (selectPml4 env root w).m.pml4kernelThread = root := rfl

@[simp] theorem selectPml4_cr3 (env : Env) (root : Nat) (w : World) :
    (selectPml4 env root w).m.cr3 = sub64 root env.WholePhysicalStart := rfl

@[simp] theorem selectPml4_trace (env : Env) (root : Nat) (w : World) :
    (selectPml4 env root w).trace =
      w.trace ++ [.storeRoot root, .writeCr3 (sub64 root env.WholePhysicalStart)] := by
  simp [selectPml4]

@[simp] theorem callDestroy_trace (env : Env) (i : Nat) (w : World) :
    (callDestroy env i w).trace = w.trace ++ [.callDestroy i] := rfl

@[simp] theorem callDestroy_m (env : Env) (i : Nat) (w : World) :
    (callDestroy env i w).m = env.Process_destroy i w.m := rfl

/-! ### Entering a slot -/

@[simp] theorem enterSlot_trace (env : Env) (i : Nat) (w : World) :
    (enterSlot env i w).trace = w.trace ++
      [.capture i (w.m.processes i).syscallToHandle, .storeSyscall i .Noop,
       .storeRoot (w.m.processes i).pml4,
       .writeCr3 (sub64 (w.m.processes i).pml4 env.WholePhysicalStart)] := by
  simp [enterSlot]

@[simp] theorem enterSlot_same (env : Env) (i : Nat) (w : World) :
    (enterSlot env i w).m.processes i = { w.m.processes i with syscallToHandle := .Noop } := by
  simp [enterSlot]

theorem enterSlot_other (env : Env) (i j : Nat) (w : World) (h : j ≠ i) :
    (enterSlot env i w).m.processes j = w.m.processes j := by
  simp [enterSlot, storeSyscall_other _ _ _ _ h]

@[simp] theorem enterSlot_pml4 (env : Env) (i j : Nat) (w : World) :
    ((enterSlot env i w).m.processes j).pml4 = (w.m.processes j).pml4 := by
  simp [enterSlot]

@[simp] theorem enterSlot_root (env : Env) (i : Nat) (w : World) :
    (enterSlot env i w).m.pml4kernelThread = (w.m.processes i).pml4 := by
  simp [enterSlot]

@[simp] theorem enterSlot_cr3 (env : Env) (i : Nat) (w : World) :
    (enterSlot env i w).m.cr3 = sub64 (w.m.processes i).pml4 env.WholePhysicalStart := by
  simp [enterSlot]

theorem visit_idle (env : Env) (j : Nat) (w : World) (h : pending w.m j = false) :
    visit env j w = w := by
  unfold visit
  unfold pending at h
  by_cases hp : (w.m.processes j).present = true
  · by_cases hs : (w.m.processes j).syscallToHandle = .Noop
    · simp [hs]
    · simp [hp, hs] at h
  · simp [hp]

theorem visit_pending (env : Env) (j : Nat) (w : World) (h : pending w.m j = true) :
    visit env j w = branch env j (w.m.processes j).syscallToHandle (enterSlot env j w) := by
  unfold visit
  unfold pending at h
  simp at h
  simp [h.1, h.2]

theorem visitMany_add (env : Env) (a b : Nat) : ∀ (index : Nat) (w : World),
    visitMany env (a + b) index w = visitMany env b (index + a) (visitMany env a index w) := by
  induction a with
  | zero => intro index w; simp [visitMany]
  | succ a ih =>
    intro index w
    have h : a + 1 + b = (a + b) + 1 := by omega
    rw [h]
    simp only [visitMany]
    rw [ih]
    congr 1
    omega

theorem visitMany_idle (env : Env) : ∀ (n index : Nat) (w : World),
    (∀ j, index ≤ j → j < index + n → pending w.m j = false) →
    visitMany env n index w = w := by
  intro n
  induction n with
  | zero => intro index w _; rfl
  | succ n ih =>
    intro index w h
    simp only [visitMany]
    rw [visit_idle env index w (h index (le_refl _) (by omega))]
    exact ih (index + 1) w (fun j h1 h2 => h j (by omega) (by omega))

/-- The inner loop ends: with more fuel than turns left it returns, and what it
returns is the unrolled scan. -/
theorem scanLoop_eq (env : Env) : ∀ (n index : Nat) (w : World) (fuel : Nat),
    index + n = 255 → n < fuel → scanLoop env fuel index w = some (visitMany env n index w) := by
  intro n
  induction n with
  | zero =>
    intro index w fuel h1 h2
    obtain ⟨f, rfl⟩ : ∃ f, fuel = f + 1 := ⟨fuel - 1, by omega⟩
    have : ¬ index < 255 := by omega
    simp [scanLoop, visitMany, this]
  | succ n ih =>
    intro index w fuel h1 h2
    obtain ⟨f, rfl⟩ : ∃ f, fuel = f + 1 := ⟨fuel - 1, by omega⟩
    have : index < 255 := by omega
    simp only [scanLoop, visitMany, this, if_true]
    exact ih (index + 1) _ f (by omega) (by omega)

theorem kernelThreadScan_eq (env : Env) (w : World) :
    kernelThreadScan env w = some (visitMany env 254 1 w) :=
  scanLoop_eq env 254 1 w 255 rfl (by decide)

@[simp] theorem ite_emit_m (c : Prop) [Decidable c] (e : Event) (w : World) :
    (if c then emit e w else w).m = w.m := by
  split <;> rfl

@[simp] theorem ite_emit_trace (c : Prop) [Decidable c] (e : Event) (w : World) :
    (if c then emit e w else w).trace = w.trace ++ (if c then [e] else []) := by
  split <;> simp

theorem cpuDiagnostics_isLog (p : Process) : ∀ e ∈ cpuDiagnostics p, e.isLog = true := by
  intro e he
  unfold cpuDiagnostics at he
  simp only [List.mem_append] at he
  rcases he with (he | he) | he <;> split at he <;> simp at he <;> subst he <;> rfl

theorem exitPrologue_trace (env : Env) (i : Nat) (w : World) :
    (handleExitProcessPrologue env i w).trace = w.trace ++
      [.log (.exitProcess i (w.m.processes i).frame.rdxArg1), .storePresent i false,
       .storeRoot (w.m.processes 0).pml4,
       .writeCr3 (sub64 (w.m.processes 0).pml4 env.WholePhysicalStart)] := by
  simp [handleExitProcessPrologue]

theorem exitPrologue_same (env : Env) (i : Nat) (w : World) :
    (handleExitProcessPrologue env i w).m.processes i = { w.m.processes i with present := false } := by
  simp [handleExitProcessPrologue]

theorem exitPrologue_other (env : Env) (i j : Nat) (w : World) (h : j ≠ i) :
    (handleExitProcessPrologue env i w).m.processes j = w.m.processes j := by
  simp [handleExitProcessPrologue, storePresent_other _ _ _ _ h]

theorem exitPrologue_root (env : Env) (i : Nat) (w : World) :
    (handleExitProcessPrologue env i w).m.pml4kernelThread = (w.m.processes 0).pml4 := by
  simp [handleExitProcessPrologue]

theorem exitPrologue_cr3 (env : Env) (i : Nat) (w : World) :
    (handleExitProcessPrologue env i w).m.cr3 =
      sub64 (w.m.processes 0).pml4 env.WholePhysicalStart := by
  simp [handleExitProcessPrologue]

theorem cpuPrologue_trace (env : Env) (i : Nat) (w : World) :
    (handleCpuPrologue env i w).trace = w.trace ++
      [.log (.cpu i (w.m.processes i).frame.rdxArg1),
       .log (.quakeClosed i (w.m.processes i).frame.index), .storePresent i false] ++
      cpuDiagnostics (w.m.processes i) ++
      [.storeRoot (w.m.processes 0).pml4,
       .writeCr3 (sub64 (w.m.processes 0).pml4 env.WholePhysicalStart)] := by
  simp [handleCpuPrologue, cpuDiagnostics]

theorem cpuPrologue_same (env : Env) (i : Nat) (w : World) :
    (handleCpuPrologue env i w).m.processes i = { w.m.processes i with present := false } := by
  simp [handleCpuPrologue]

theorem cpuPrologue_other (env : Env) (i j : Nat) (w : World) (h : j ≠ i) :
    (handleCpuPrologue env i w).m.processes j = w.m.processes j := by
  simp [handleCpuPrologue, storePresent_other _ _ _ _ h]

theorem cpuPrologue_root (env : Env) (i : Nat) (w : World) :
    (handleCpuPrologue env i w).m.pml4kernelThread = (w.m.processes 0).pml4 := by
  simp [handleCpuPrologue]

theorem cpuPrologue_cr3 (env : Env) (i : Nat) (w : World) :
    (handleCpuPrologue env i w).m.cr3 =
      sub64 (w.m.processes 0).pml4 env.WholePhysicalStart := by
  simp [handleCpuPrologue]

theorem pending_congr {m m' : Machine} {j : Nat} (h : m'.processes j = m.processes j) :
    pending m' j = pending m j := by
  simp [pending, h]

/-- What a visit of a slot with a pending `ExitProcess` or `Cpu` does: it is
the call of `Process_destroy` in a world `pre` whose trace and machine are
given. -/
theorem termination_visit (env : Env) (w : World) (i : Nat)
    (hp : (w.m.processes i).present = true)
    (ht : (w.m.processes i).syscallToHandle = .ExitProcess ∨
          (w.m.processes i).syscallToHandle = .Cpu) :
    ∃ (pre : World) (logs1 logs2 : List Event),
      visit env i w = callDestroy env i pre ∧
      pre.trace = w.trace ++
        [.capture i (w.m.processes i).syscallToHandle, .storeSyscall i .Noop,
         .storeRoot (w.m.processes i).pml4,
         .writeCr3 (sub64 (w.m.processes i).pml4 env.WholePhysicalStart)] ++
        logs1 ++ [.storePresent i false] ++ logs2 ++
        [.storeRoot (w.m.processes 0).pml4,
         .writeCr3 (sub64 (w.m.processes 0).pml4 env.WholePhysicalStart)] ∧
      (∀ e ∈ logs1 ++ logs2, e.isLog = true) ∧
      pre.m.processes i =
        { w.m.processes i with syscallToHandle := .Noop, present := false } ∧
      (∀ j, j ≠ i → pre.m.processes j = w.m.processes j) ∧
      pre.m.pml4kernelThread = (w.m.processes 0).pml4 ∧
      pre.m.cr3 = sub64 (w.m.processes 0).pml4 env.WholePhysicalStart := by
  rcases ht with ht | ht
  · refine ⟨handleExitProcessPrologue env i (enterSlot env i w),
      [.log (.exitProcess i (w.m.processes i).frame.rdxArg1)], [], ?_, ?_, ?_, ?_, ?_, ?_, ?_⟩
    · simp [visit, hp, ht, branch, handleExitProcess]
    · simp [exitPrologue_trace, ht]
    · simp [Event.isLog]
    · simp [exitPrologue_same]
    · intro j hj
      rw [exitPrologue_other _ _ _ _ hj, enterSlot_other _ _ _ _ hj]
    · simp [exitPrologue_root]
    · simp [exitPrologue_cr3]
  · refine ⟨handleCpuPrologue env i (enterSlot env i w),
      [.log (.cpu i (w.m.processes i).frame.rdxArg1),
       .log (.quakeClosed i (w.m.processes i).frame.index)],
      cpuDiagnostics { w.m.processes i with syscallToHandle := .Noop }, ?_, ?_, ?_, ?_, ?_, ?_, ?_⟩
    · simp [visit, hp, ht, branch, handleCpu]
    · simp [cpuPrologue_trace, ht]
    · intro e he
      rcases List.mem_append.1 he with he | he
      · simp at he
        rcases he with rfl | rfl <;> rfl
      · exact cpuDiagnostics_isLog _ e he
    · simp [cpuPrologue_same]
    · intro j hj
      rw [cpuPrologue_other _ _ _ _ hj, enterSlot_other _ _ _ _ hj]
    · simp [cpuPrologue_root]
    · simp [cpuPrologue_cr3]

/-- A scan in which slot `i` is the only pending slot is the visit of `i`. -/
theorem scan_single (env : Env) (w : World) (i : Nat) (h1 : 1 ≤ i) (h2 : i < 255)
    (hothers : ∀ j, 1 ≤ j → j < 255 → j ≠ i → pending w.m j = false)
    (hafter : ∀ j, j ≠ i → (visit env i w).m.processes j = w.m.processes j) :
    kernelThreadScan env w = some (visit env i w) := by
  rw [kernelThreadScan_eq]
  have e : 254 = (i - 1) + (1 + (254 - i)) := by omega
  rw [e, visitMany_add, visitMany_idle env (i - 1) 1 w
    (fun j a b => hothers j a (by omega) (by omega)), visitMany_add]
  have e1 : 1 + (i - 1) = i := by omega
  rw [e1]
  simp only [visitMany]
  rw [visitMany_idle]
  intro j a b
  rw [pending_congr (hafter j (by omega))]
  exact hothers j (by omega) (by omega) (by omega)

/-! ## Termination sequence -/

/-- C1. A slot `i` that is present with a pending `ExitProcess` or `Cpu` is
handled in this order: capture and reset of the tag, root of slot `i`, log
lines, `present[i] = false`, diagnostics, `pml4kernelThread` set to the root
of slot 0 and CR3 written with its physical address, and only then
`Process_destroy(i)`, which is the last effect. In the world `pre` in which
`Process_destroy` is called, `present[i]` is false, the active root is the
idle root (so not the root of slot `i`, when the two differ) and
`schedulable[i]` is as before; no store to `schedulable[i]` is among the
effects. When `i`, between 1 and 254, is the only pending slot and
`Process_destroy` keeps to its contract, the scan returns, and ends with
`present[i]` false, `pml4kernelThread` the idle root and CR3 its physical
address. -/
theorem termination_sequence (env : Env) (w : World) (i : Nat)
    (hp : (w.m.processes i).present = true)
    (ht : (w.m.processes i).syscallToHandle = .ExitProcess ∨
          (w.m.processes i).syscallToHandle = .Cpu) :
    (∃ (pre : World) (logs1 logs2 : List Event),
      visit env i w = callDestroy env i pre ∧
      (visit env i w).trace = pre.trace ++ [.callDestroy i] ∧
      pre.trace = w.trace ++
        [.capture i (w.m.processes i).syscallToHandle, .storeSyscall i .Noop,
         .storeRoot (w.m.processes i).pml4,
         .writeCr3 (sub64 (w.m.processes i).pml4 env.WholePhysicalStart)] ++
        logs1 ++ [.storePresent i false] ++ logs2 ++
        [.storeRoot (w.m.processes 0).pml4,
         .writeCr3 (sub64 (w.m.processes 0).pml4 env.WholePhysicalStart)] ∧
      (∀ e ∈ logs1 ++ logs2, e.isLog = true) ∧
      (pre.m.processes i).present = false ∧
      (pre.m.processes i).schedulable = (w.m.processes i).schedulable ∧
      pre.m.pml4kernelThread = (pre.m.processes 0).pml4 ∧
      (pre.m.processes 0).pml4 = (w.m.processes 0).pml4 ∧
      pre.m.cr3 = sub64 (pre.m.processes 0).pml4 env.WholePhysicalStart ∧
      ((w.m.processes i).pml4 ≠ (w.m.processes 0).pml4 →
        pre.m.pml4kernelThread ≠ (w.m.processes i).pml4) ∧
      (∀ e ∈ (visit env i w).trace.drop w.trace.length, ∀ v, e ≠ .storeSchedulable i v)) ∧
    (1 ≤ i → i < 255 →
      (∀ j, 1 ≤ j → j < 255 → j ≠ i → pending w.m j = false) →
      DestroyIsLocal env i →
      ∃ w', kernelThreadScan env w = some w' ∧
        (w'.m.processes i).present = false ∧
        w'.m.pml4kernelThread = (w'.m.processes 0).pml4 ∧
        (w'.m.processes 0).pml4 = (w.m.processes 0).pml4 ∧
        w'.m.cr3 = sub64 (w'.m.processes 0).pml4 env.WholePhysicalStart) := by
  obtain ⟨pre, logs1, logs2, hv, htr, hlogs, hi, ho, hroot, hcr3⟩ :=
    termination_visit env w i hp ht
  have h0 : (pre.m.processes 0).pml4 = (w.m.processes 0).pml4 := by
    by_cases h : 0 = i
    · subst h; rw [hi]
    · rw [ho 0 h]
  constructor
  · refine ⟨pre, logs1, logs2, hv, by rw [hv]; rfl, htr, hlogs, by rw [hi], by rw [hi], ?_, h0,
      ?_, ?_, ?_⟩
    · rw [hroot, h0]
    · rw [hcr3, h0]
    · intro hne; rw [hroot]; exact fun h => hne h.symm
    · intro e he v
      rw [hv, callDestroy_trace, htr] at he
      simp only [List.append_assoc, List.drop_left'] at he
      simp only [List.mem_append, List.mem_cons, List.mem_singleton, List.not_mem_nil,
        or_false] at he
      rintro rfl
      rcases he with he | he | he | he | he | he | he <;>
        first
        | exact absurd he (by simp)
        | exact absurd (hlogs _ (List.mem_append.2 (Or.inl he))) (by simp [Event.isLog])
        | exact absurd (hlogs _ (List.mem_append.2 (Or.inr he))) (by simp [Event.isLog])
  · intro h1 h2 hothers hd
    have hvm : (visit env i w).m = env.Process_destroy i pre.m := by rw [hv]; rfl
    have hafter : ∀ j, j ≠ i → (visit env i w).m.processes j = w.m.processes j := by
      intro j hj
      rw [hvm, (hd pre.m).1 j hj, ho j hj]
    have hi0 : (0 : Nat) ≠ i := by omega
    refine ⟨visit env i w, scan_single env w i h1 h2 hothers hafter, ?_, ?_, ?_, ?_⟩
    · rw [hvm]; exact (hd pre.m).2.1 (by rw [hi])
    · rw [hvm, (hd pre.m).2.2.1, hroot, (hd pre.m).1 0 hi0, ho 0 hi0]
    · rw [hafter 0 hi0]
    · rw [hvm, (hd pre.m).2.2.2, hcr3, (hd pre.m).1 0 hi0, ho 0 hi0]

theorem sampleMachine_same (slot : Nat) (p : Process) :
    (sampleMachine slot p).processes slot = p := by
  simp [sampleMachine]

theorem sampleMachine_idle (slot : Nat) (p : Process) (h : slot ≠ 0) :
    (sampleMachine slot p).processes 0 =
      { present := true, schedulable := true, syscallToHandle := .Noop,
        pml4 := 0xFFFF800000001000, frame := (zeroProcess .Noop).frame,
        cr2PageFaultAddress := 0 } := by
  rw [sampleMachine, setProcess_other _ _ _ _ (Ne.symm h)]
  simp [kernelInit, zeroProcess, add64, u64]

theorem sampleMachine_empty (slot j : Nat) (p : Process) (h : j ≠ slot) (h0 : j ≠ 0) :
    (sampleMachine slot p).processes j = zeroProcess .Noop := by
  rw [sampleMachine, setProcess_other _ _ _ _ h]
  simp [kernelInit, Function.update_noteq h0]

theorem sampleMachine_others_idle (slot : Nat) (p : Process) :
    ∀ j, 1 ≤ j → j < 255 → j ≠ slot → pending (sampleMachine slot p) j = false := by
  intro j h1 _ h3
  simp [pending, sampleMachine_empty slot j p h3 (by omega), zeroProcess]

theorem sampleEnv_destroyIsLocal (i : Nat) : DestroyIsLocal sampleEnv i := by
  intro m
  refine ⟨fun j hj => ?_, fun h => ?_, rfl, rfl⟩
  · simp [sampleEnv, setProcess_other _ _ _ _ hj]
  · simp [sampleEnv, h]

/-- Scenario D of the spec on the sample machine: slot 7 asks for `ExitProcess`. -/
theorem termination_sequence_witness :
    (((sampleWorld 7 (sampleProcess .ExitProcess 0)).m.processes 7).present = true ∧
      ((sampleWorld 7 (sampleProcess .ExitProcess 0)).m.processes 7).syscallToHandle =
        .ExitProcess) ∧
    ∃ w', kernelThreadScan sampleEnv (sampleWorld 7 (sampleProcess .ExitProcess 0)) = some w' ∧
      (w'.m.processes 7).present = false ∧
      w'.m.pml4kernelThread = 0xFFFF800000001000 ∧
      w'.m.cr3 = 0x1000 := by
  have hp : ((sampleWorld 7 (sampleProcess .ExitProcess 0)).m.processes 7).present = true := by
    simp [sampleWorld, sampleMachine_same, sampleProcess]
  have ht : ((sampleWorld 7 (sampleProcess .ExitProcess 0)).m.processes 7).syscallToHandle =
      .ExitProcess := by
    simp [sampleWorld, sampleMachine_same, sampleProcess]
  have h0 : ((sampleWorld 7 (sampleProcess .ExitProcess 0)).m.processes 0).pml4 =
      0xFFFF800000001000 := by
    simp [sampleWorld, sampleMachine_idle]
  obtain ⟨w', hs, h1, h2, h3, h4⟩ :=
    (termination_sequence sampleEnv (sampleWorld 7 (sampleProcess .ExitProcess 0)) 7 hp
      (Or.inl ht)).2 (by decide) (by decide) (sampleMachine_others_idle 7 _)
      (sampleEnv_destroyIsLocal 7)
  refine ⟨⟨hp, ht⟩, w', hs, h1, ?_, ?_⟩
  · rw [h2, h3, h0]
  · rw [h4, h3, h0]
    simp [sampleEnv, sub64, u64]

/-! ### The trace of a visit -/

theorem handleDebugLog_trace (env : Env) (i : Nat) (w : World) :
    (handleDebugLog env i w).trace = w.trace ++ debugLogEvents env i w := by
  unfold handleDebugLog debugLogEvents
  by_cases h1 : env.probeForReadOkay w.m (w.m.processes i).frame.rdxArg1
      env.sizeofDebugLogPayload = true
  · by_cases h2 : env.probeForReadOkay w.m
        (env.readPayload w.m (w.m.processes i).frame.rdxArg1).message 1 = true
    · simp [h1, h2]
    · simp [h1, h2]
  · simp [h1]

theorem handleExitProcess_trace (env : Env) (i : Nat) (w : World) :
    (handleExitProcess env i w).trace = w.trace ++ exitProcessEvents env i w := by
  simp [handleExitProcess, exitPrologue_trace, exitProcessEvents]

theorem handleCpu_trace (env : Env) (i : Nat) (w : World) :
    (handleCpu env i w).trace = w.trace ++ cpuEvents env i w := by
  simp [handleCpu, cpuPrologue_trace, cpuEvents]

theorem handleOther_trace (env : Env) (i : Nat) (t : TofitaSyscalls) (w : World) :
    (handleOther env i t w).trace = w.trace ++ otherEvents env i t w := by
  unfold handleOther otherEvents userCallMachine handleOtherPrologue
  by_cases h : (env.userCallHandled i t (storeRax i 0 w).m).1 = false
  · simp [h]
  · simp [h]

theorem branch_trace (env : Env) (i : Nat) (t : TofitaSyscalls) (w : World) :
    (branch env i t w).trace = w.trace ++ branchEvents env i t w := by
  unfold branch branchEvents
  split
  · exact handleDebugLog_trace env i w
  · split
    · exact handleExitProcess_trace env i w
    · split
      · exact handleCpu_trace env i w
      · exact handleOther_trace env i t w

theorem visit_trace (env : Env) (i : Nat) (w : World) :
    (visit env i w).trace = w.trace ++ visitEvents env i w := by
  unfold visitEvents
  by_cases h : pending w.m i = true
  · rw [visit_pending env i w h, branch_trace, enterSlot_trace]
    simp [h, enterEvents]
  · simp only [Bool.not_eq_true] at h
    rw [visit_idle env i w h]
    simp [h]

theorem visitMany_trace (env : Env) : ∀ (n index : Nat) (w : World),
    (visitMany env n index w).trace = w.trace ++ visitManyEvents env n index w := by
  intro n
  induction n with
  | zero => intro index w; simp [visitMany, visitManyEvents]
  | succ n ih =>
    intro index w
    simp only [visitMany, visitManyEvents]
    rw [ih, visit_trace, List.append_assoc]

/-! ### CR3 writes -/

theorem cr3Follows_mono (wps : Nat) (prev : Option Nat) (l : List Event)
    (h : cr3Follows wps none l) : cr3Follows wps prev l := by
  cases l with
  | nil => trivial
  | cons e rest =>
    cases e <;> simp_all [cr3Follows]

theorem cr3Follows_append (wps : Nat) : ∀ (a : List Event) (prev : Option Nat) (b : List Event),
    cr3Follows wps prev a → cr3Follows wps none b → cr3Follows wps prev (a ++ b) := by
  intro a
  induction a with
  | nil => intro prev b _ hb; exact cr3Follows_mono wps prev b hb
  | cons e rest ih =>
    intro prev b ha hb
    cases e <;> simp_all [cr3Follows]

theorem cr3Follows_of_logs (wps : Nat) : ∀ (l : List Event) (prev : Option Nat),
    (∀ e ∈ l, e.isLog = true) → cr3Follows wps prev l := by
  intro l
  induction l with
  | nil => intro _ _; trivial
  | cons e rest ih =>
    intro prev h
    have he := h e (List.mem_cons_self _ _)
    have hr := ih none (fun x hx => h x (List.mem_cons_of_mem _ hx))
    cases e <;> simp_all [cr3Follows, Event.isLog]

theorem cr3Follows_branchEvents (env : Env) (i : Nat) (t : TofitaSyscalls) (w : World) :
    cr3Follows env.WholePhysicalStart none (branchEvents env i t w) := by
  unfold branchEvents
  split
  · unfold debugLogEvents
    simp only []
    split <;> [split; skip] <;> simp [cr3Follows]
  · split
    · simp [exitProcessEvents, cr3Follows]
    · split
      · unfold cpuEvents
        rw [List.append_assoc]
        apply cr3Follows_append
        · simp [cr3Follows]
        · apply cr3Follows_append
          · exact cr3Follows_of_logs _ _ _ (cpuDiagnostics_isLog _)
          · simp [cr3Follows]
      · unfold otherEvents
        simp only []
        split <;> simp [cr3Follows]

theorem cr3Follows_visitEvents (env : Env) (i : Nat) (w : World) :
    cr3Follows env.WholePhysicalStart none (visitEvents env i w) := by
  unfold visitEvents
  split
  · apply cr3Follows_append
    · simp [enterEvents, cr3Follows]
    · exact cr3Follows_branchEvents env i _ _
  · trivial

theorem cr3Follows_visitManyEvents (env : Env) : ∀ (n index : Nat) (w : World),
    cr3Follows env.WholePhysicalStart none (visitManyEvents env n index w) := by
  intro n
  induction n with
  | zero => intro _ _; trivial
  | succ n ih =>
    intro index w
    simp only [visitManyEvents]
    exact cr3Follows_append _ _ _ _ (cr3Follows_visitEvents env index w) (ih _ _)

theorem sub64_add64 (wps p : Nat) (hp : p < 2 ^ 64) :
    sub64 (add64 wps p) wps = p := by
  unfold sub64 add64 u64
  omega

theorem kernelInit_idle (wps : Nat) (zeroTag : TofitaSyscalls) (cr3 : Nat) (params : KernelParams) :
    (kernelInit wps zeroTag cr3 params).processes 0 =
      { zeroProcess zeroTag with pml4 := add64 wps params.pml4, schedulable := true,
                                 present := true, syscallToHandle := .Noop } := by
  simp [kernelInit]

theorem kernelInit_other (wps : Nat) (zeroTag : TofitaSyscalls) (cr3 : Nat) (params : KernelParams)
    (j : Nat) (h : j ≠ 0) :
    (kernelInit wps zeroTag cr3 params).processes j = zeroProcess zeroTag := by
  simp [kernelInit, Function.update_noteq h]

/-- C10. Every CR3 write of a scan comes right after a store to
`pml4kernelThread` and its value is that root minus `WholePhysicalStart` in
64-bit arithmetic. Entering a pending slot `i` stores `processes[i].pml4` and
writes its physical address, and the branch runs in that world; a terminating
branch ends with the store of `processes[0].pml4`, the write of its physical
address and the call of `Process_destroy`. When slot 0 holds the root that
`kernelInit` computed from a 64-bit `params->pml4`, the value written for the
idle root is `params->pml4`. -/
theorem cr3_written_is_physical_root (env : Env) (w : World) :
    (∃ w', kernelThreadScan env w = some w' ∧
      w'.trace = w.trace ++ visitManyEvents env 254 1 w ∧
      cr3Follows env.WholePhysicalStart none (visitManyEvents env 254 1 w)) ∧
    (∀ i, pending w.m i = true →
      visit env i w = branch env i (w.m.processes i).syscallToHandle (enterSlot env i w) ∧
      (enterSlot env i w).trace = w.trace ++
        [.capture i (w.m.processes i).syscallToHandle, .storeSyscall i .Noop,
         .storeRoot (w.m.processes i).pml4,
         .writeCr3 (sub64 (w.m.processes i).pml4 env.WholePhysicalStart)] ∧
      (enterSlot env i w).m.pml4kernelThread = (w.m.processes i).pml4 ∧
      (enterSlot env i w).m.cr3 = sub64 (w.m.processes i).pml4 env.WholePhysicalStart) ∧
    (∀ i, (w.m.processes i).present = true →
      ((w.m.processes i).syscallToHandle = .ExitProcess ∨
        (w.m.processes i).syscallToHandle = .Cpu) →
      ∃ before, (visit env i w).trace = before ++
        [.storeRoot (w.m.processes 0).pml4,
         .writeCr3 (sub64 (w.m.processes 0).pml4 env.WholePhysicalStart), .callDestroy i]) ∧
    (∀ (zeroTag : TofitaSyscalls) (cr3 : Nat) (params : KernelParams), params.pml4 < 2 ^ 64 →
      (kernelInit env.WholePhysicalStart zeroTag cr3 params).pml4kernelThread =
        add64 env.WholePhysicalStart params.pml4 ∧
      ((w.m.processes 0).pml4 =
          ((kernelInit env.WholePhysicalStart zeroTag cr3 params).processes 0).pml4 →
        sub64 (w.m.processes 0).pml4 env.WholePhysicalStart = params.pml4)) := by
  refine ⟨⟨_, kernelThreadScan_eq env w, visitMany_trace env 254 1 w,
    cr3Follows_visitManyEvents env 254 1 w⟩, ?_, ?_, ?_⟩
  · intro i hi
    exact ⟨visit_pending env i w hi, enterSlot_trace env i w, enterSlot_root env i w,
      enterSlot_cr3 env i w⟩
  · intro i hp ht
    obtain ⟨pre, logs1, logs2, hv, htr, -⟩ := termination_visit env w i hp ht
    refine ⟨w.trace ++
        [.capture i (w.m.processes i).syscallToHandle, .storeSyscall i .Noop,
         .storeRoot (w.m.processes i).pml4,
         .writeCr3 (sub64 (w.m.processes i).pml4 env.WholePhysicalStart)] ++
        logs1 ++ [.storePresent i false] ++ logs2, ?_⟩
    rw [hv, callDestroy_trace, htr]
    simp
  · intro zeroTag cr3 params hp
    refine ⟨by simp [kernelInit], fun h => ?_⟩
    rw [h, kernelInit_idle]
    exact sub64_add64 _ _ hp

/-- On the sample machine with an `ExitProcess` pending in slot 7, the idle
root is written to CR3 as `0x1000`, the `params->pml4` of the boot. -/
theorem cr3_written_is_physical_root_witness :
    (pending (sampleWorld 7 (sampleProcess .ExitProcess 0)).m 7 = true ∧
      (0x1000 : Nat) < 2 ^ 64) ∧
    (enterSlot sampleEnv 7 (sampleWorld 7 (sampleProcess .ExitProcess 0))).m.cr3 = 0x200000 ∧
    sub64 ((sampleWorld 7 (sampleProcess .ExitProcess 0)).m.processes 0).pml4
      sampleEnv.WholePhysicalStart = 0x1000 := by
  have hpend : pending (sampleWorld 7 (sampleProcess .ExitProcess 0)).m 7 = true := by
    simp [pending, sampleWorld, sampleMachine_same, sampleProcess]
  have h := cr3_written_is_physical_root sampleEnv (sampleWorld 7 (sampleProcess .ExitProcess 0))
  refine ⟨⟨hpend, by decide⟩, ?_, ?_⟩
  · rw [(h.2.1 7 hpend).2.2.2]
    simp [sampleWorld, sampleMachine_same, sampleProcess, sampleEnv, sub64, u64]
  · exact (h.2.2.2 .Noop 0x1000 { pml4 := 0x1000 } (by decide)).2
      (by simp [sampleWorld, sampleMachine_idle, kernelInit_idle, sampleEnv, add64, u64])

/-! ## The `DebugLog` branch -/

theorem handleDebugLog_m (env : Env) (i : Nat) (w : World) :
    (handleDebugLog env i w).m = setProcess i (fun p => { p with schedulable := true }) w.m := by
  unfold handleDebugLog
  by_cases h1 : env.probeForReadOkay w.m (w.m.processes i).frame.rdxArg1
      env.sizeofDebugLogPayload = true
  · by_cases h2 : env.probeForReadOkay w.m
        (env.readPayload w.m (w.m.processes i).frame.rdxArg1).message 1 = true
    · simp [h1, h2, storeSchedulable]
    · simp [h1, h2, storeSchedulable]
  · simp [h1, storeSchedulable]

theorem visit_debugLog (env : Env) (w : World) (i : Nat)
    (hp : (w.m.processes i).present = true)
    (ht : (w.m.processes i).syscallToHandle = .DebugLog) :
    visit env i w = handleDebugLog env i (enterSlot env i w) := by
  simp [visit, hp, ht, branch]

/-- C3. A `DebugLog` request of a present slot `i`, by the outcome of the two
probes, which run in the world the slot was entered in. First probe fails:
the effects of the branch are the two header lines, the failed probe, the
newline and the store `schedulable[i] = true`; no user memory is read and no
user message is logged. First probe succeeds and the probe of
`payload->message` fails: the payload is read, the message is neither read
nor logged. Both succeed: the message is read and logged. In all three cases
the visit ends with `schedulable[i]` true and `present[i]` true, the machine
being the one the slot was entered in with that one store. -/
theorem debugLog_probe_outcomes (env : Env) (w : World) (i : Nat)
    (hp : (w.m.processes i).present = true)
    (ht : (w.m.processes i).syscallToHandle = .DebugLog) :
    let w0 := enterSlot env i w
    let frame := (w.m.processes i).frame
    let header : List Event :=
      [.log (.debugLogPid i), .log (.debugLogRegs frame.rcxArg0 frame.rdxArg1 frame.r8)]
    let footer : List Event := [.log .newline, .storeSchedulable i true]
    let payload := env.readPayload w0.m frame.rdxArg1
    let ok1 := env.probeForReadOkay w0.m frame.rdxArg1 env.sizeofDebugLogPayload
    let ok2 := env.probeForReadOkay w0.m payload.message 1
    (ok1 = false →
      (visit env i w).trace = w0.trace ++ header ++
        [.probe frame.rdxArg1 env.sizeofDebugLogPayload false] ++ footer) ∧
    (ok1 = true → ok2 = false →
      (visit env i w).trace = w0.trace ++ header ++
        [.probe frame.rdxArg1 env.sizeofDebugLogPayload true,
         .readUser frame.rdxArg1 env.sizeofDebugLogPayload,
         .probe payload.message 1 false] ++ footer) ∧
    (ok1 = true → ok2 = true →
      (visit env i w).trace = w0.trace ++ header ++
        [.probe frame.rdxArg1 env.sizeofDebugLogPayload true,
         .readUser frame.rdxArg1 env.sizeofDebugLogPayload,
         .probe payload.message 1 true,
         .readUser payload.message (env.formatBytes w0.m payload.message),
         .log (.userMessage payload.message payload.extra payload.more)] ++ footer) ∧
    ((∃ a b c, Event.log (.userMessage a b c) ∈ (visit env i w).trace.drop w.trace.length) ↔
      (ok1 = true ∧ ok2 = true)) ∧
    ((∃ a n, Event.readUser a n ∈ (visit env i w).trace.drop w.trace.length) ↔ ok1 = true) ∧
    (visit env i w).m = setProcess i (fun p => { p with schedulable := true }) w0.m ∧
    ((visit env i w).m.processes i).schedulable = true ∧
    ((visit env i w).m.processes i).present = true := by
  intro w0 frame header footer payload ok1 ok2
  have hv := visit_debugLog env w i hp ht
  have hf : (w0.m.processes i).frame = frame := by simp [w0, frame]
  have htr : (visit env i w).trace = w0.trace ++ debugLogEvents env i w0 := by
    rw [hv, handleDebugLog_trace]
  have hdrop : (visit env i w).trace.drop w.trace.length =
      enterEvents env i w ++ debugLogEvents env i w0 := by
    rw [htr, enterSlot_trace, List.append_assoc, List.drop_left' rfl]
    rfl
  have hm : (visit env i w).m = setProcess i (fun p => { p with schedulable := true }) w0.m := by
    rw [hv, handleDebugLog_m]
  refine ⟨?_, ?_, ?_, ?_, ?_, hm, ?_, ?_⟩
  · intro h1
    rw [htr]
    simp only [debugLogEvents, hf]
    simp [ok1] at h1
    simp [h1, header, footer]
  · intro h1 h2
    rw [htr]
    simp only [debugLogEvents, hf]
    simp [ok1] at h1
    simp [ok2, payload] at h2
    simp [h1, h2, header, footer, payload]
  · intro h1 h2
    rw [htr]
    simp only [debugLogEvents, hf]
    simp [ok1] at h1
    simp [ok2, payload] at h2
    simp [h1, h2, header, footer, payload]
  · rw [hdrop]
    simp only [debugLogEvents, hf, enterEvents]
    by_cases h1 : env.probeForReadOkay w0.m frame.rdxArg1 env.sizeofDebugLogPayload = true
    · by_cases h2 : env.probeForReadOkay w0.m payload.message 1 = true
      · simp [h1, h2, ok1, ok2, payload]
      · simp [h1, h2, ok1, ok2, payload]
    · simp [h1, ok1]
  · rw [hdrop]
    simp only [debugLogEvents, hf, enterEvents]
    by_cases h1 : env.probeForReadOkay w0.m frame.rdxArg1 env.sizeofDebugLogPayload = true
    · simp only [h1, ok1, iff_true]
      exact ⟨frame.rdxArg1, env.sizeofDebugLogPayload, by simp⟩
    · simp [h1, ok1]
  · rw [hm]; simp
  · rw [hm]; simp [w0, hp]

/-- A `DebugLog` of slot 3 of the sample machine with a readable payload at
`0x2000`: both probes succeed, and the visit ends with slot 3 schedulable and
present. -/
theorem debugLog_probe_outcomes_witness :
    (((sampleWorld 3 (sampleProcess .DebugLog 0x2000)).m.processes 3).present = true ∧
      ((sampleWorld 3 (sampleProcess .DebugLog 0x2000)).m.processes 3).syscallToHandle =
        .DebugLog) ∧
    ((visit sampleEnv 3 (sampleWorld 3 (sampleProcess .DebugLog 0x2000))).m.processes 3).schedulable
      = true ∧
    ((visit sampleEnv 3 (sampleWorld 3 (sampleProcess .DebugLog 0x2000))).m.processes 3).present
      = true := by
  have hp : ((sampleWorld 3 (sampleProcess .DebugLog 0x2000)).m.processes 3).present = true := by
    simp [sampleWorld, sampleMachine_same, sampleProcess]
  have ht : ((sampleWorld 3 (sampleProcess .DebugLog 0x2000)).m.processes 3).syscallToHandle =
      .DebugLog := by
    simp [sampleWorld, sampleMachine_same, sampleProcess]
  exact ⟨⟨hp, ht⟩, (debugLog_probe_outcomes sampleEnv
    (sampleWorld 3 (sampleProcess .DebugLog 0x2000)) 3 hp ht).2.2.2.2.2.2⟩

/-- C4, on the code. Slot 3 of the sample machine asks for `DebugLog` with a
readable payload at `0x2000` whose message, six bytes long, is at `0x2100`.
Both probes succeed; the second one covers the single byte `0x2100`. The log
sink then reads the six bytes from `0x2100` on: the bytes `0x2101` to
`0x2105` are read although no probe before the read covers them. -/
theorem debugLog_message_read_beyond_probe :
    (visit sampleEnv 3 (sampleWorld 3 (sampleProcess .DebugLog 0x2000))).trace =
      [.capture 3 .DebugLog, .storeSyscall 3 .Noop, .storeRoot 0xFFFF800000200000,
       .writeCr3 0x200000, .log (.debugLogPid 3), .log (.debugLogRegs 0 0x2000 0),
       .probe 0x2000 24 true, .readUser 0x2000 24, .probe 0x2100 1 true,
       .readUser 0x2100 6, .log (.userMessage 0x2100 1 2), .log .newline,
       .storeSchedulable 3 true] ∧
    probedOk [.probe 0x2000 24 true, .readUser 0x2000 24, .probe 0x2100 1 true] 0x2101 = false ∧
    readsProbed []
      (visit sampleEnv 3 (sampleWorld 3 (sampleProcess .DebugLog 0x2000))).trace = false := by
  have htr : (visit sampleEnv 3 (sampleWorld 3 (sampleProcess .DebugLog 0x2000))).trace =
      [.capture 3 .DebugLog, .storeSyscall 3 .Noop, .storeRoot 0xFFFF800000200000,
       .writeCr3 0x200000, .log (.debugLogPid 3), .log (.debugLogRegs 0 0x2000 0),
       .probe 0x2000 24 true, .readUser 0x2000 24, .probe 0x2100 1 true,
       .readUser 0x2100 6, .log (.userMessage 0x2100 1 2), .log .newline,
       .storeSchedulable 3 true] := by
    rw [visit_trace]
    simp [visitEvents, pending, sampleWorld, sampleMachine_same, sampleProcess, enterEvents,
      branchEvents, debugLogEvents, sampleEnv, sampleFrame, sub64, u64]
  refine ⟨htr, by decide, ?_⟩
  rw [htr]
  decide

/-! ## The last branch -/

theorem visit_other (env : Env) (w : World) (i : Nat) (t : TofitaSyscalls)
    (hp : (w.m.processes i).present = true)
    (ht : (w.m.processes i).syscallToHandle = t)
    (h0 : t ≠ .Noop) (h1 : t ≠ .DebugLog) (h2 : t ≠ .ExitProcess) (h3 : t ≠ .Cpu) :
    visit env i w = handleOther env i t (enterSlot env i w) := by
  simp [visit, hp, ht, branch, h0, h1, h2, h3]

theorem handleOther_unhandled_m (env : Env) (i : Nat) (t : TofitaSyscalls) (w : World)
    (h : (env.userCallHandled i t (userCallMachine i w)).1 = false) :
    (handleOther env i t w).m =
      setProcess i (fun p => { p with schedulable := true })
        (setProcess i (fun p => { p with frame := { p.frame with raxReturn := 0 } })
          (env.userCallHandled i t (userCallMachine i w)).2) := by
  unfold userCallMachine at h
  unfold handleOther
  simp only [h, if_true]
  rfl

theorem handleOther_handled_m (env : Env) (i : Nat) (t : TofitaSyscalls) (w : World)
    (h : (env.userCallHandled i t (userCallMachine i w)).1 = true) :
    (handleOther env i t w).m = (env.userCallHandled i t (userCallMachine i w)).2 := by
  unfold userCallMachine at h
  unfold handleOther
  simp [h, userCallMachine]

/-- C5. A present slot `i` whose pending tag `t` is none of `Noop`,
`DebugLog`, `ExitProcess`, `Cpu`. After the slot is entered, the effects are
the store `raxReturn = 0`, then the call `userCallHandled(process, t)` with
the captured tag, in a machine where `raxReturn` of slot `i` is 0, its tag is
already `Noop` and it is present. When the call reports unhandled, the
effects go on with the unknown-syscall line, `raxReturn = 0` and
`schedulable = true`, and nothing else: the machine is the one the call
returned with these two stores, so `raxReturn` is 0, `schedulable[i]` is true
and `present[i]` is as the call left it: true, when the call has not written it. -/
theorem extension_syscall_unhandled (env : Env) (w : World) (i : Nat) (t : TofitaSyscalls)
    (hp : (w.m.processes i).present = true)
    (ht : (w.m.processes i).syscallToHandle = t)
    (h0 : t ≠ .Noop) (h1 : t ≠ .DebugLog) (h2 : t ≠ .ExitProcess) (h3 : t ≠ .Cpu) :
    let w0 := enterSlot env i w
    let mcall := userCallMachine i w0
    let r := env.userCallHandled i t mcall
    ((visit env i w).trace = w0.trace ++
      [.storeRax i 0, .callUserCall i t r.1] ++
      (if r.1 = false then
        [.log (.unknownSyscall i (r.2.processes i).frame.rcxArg0), .storeRax i 0,
         .storeSchedulable i true]
      else [])) ∧
    ((mcall.processes i).frame.raxReturn = 0 ∧ (mcall.processes i).syscallToHandle = .Noop ∧
      (mcall.processes i).present = true) ∧
    (r.1 = false →
      (visit env i w).m =
        setProcess i (fun p => { p with schedulable := true })
          (setProcess i (fun p => { p with frame := { p.frame with raxReturn := 0 } }) r.2) ∧
      ((visit env i w).m.processes i).frame.raxReturn = 0 ∧
      ((visit env i w).m.processes i).schedulable = true ∧
      ((visit env i w).m.processes i).present = (r.2.processes i).present ∧
      ((r.2.processes i).present = (mcall.processes i).present →
        ((visit env i w).m.processes i).present = true) ∧
      (∃ rcx, Event.log (.unknownSyscall i rcx) ∈ (visit env i w).trace.drop w.trace.length) ∧
      (∀ e ∈ (visit env i w).trace.drop w.trace.length, ∀ v, e ≠ .storePresent i v) ∧
      (∀ e ∈ (visit env i w).trace.drop w.trace.length, e ≠ .callDestroy i)) := by
  intro w0 mcall r
  have hv := visit_other env w i t hp ht h0 h1 h2 h3
  have htr : (visit env i w).trace = w0.trace ++ otherEvents env i t w0 := by
    rw [hv, handleOther_trace]
  have hcall : (mcall.processes i).frame.raxReturn = 0 ∧
      (mcall.processes i).syscallToHandle = .Noop ∧ (mcall.processes i).present = true := by
    simp [mcall, userCallMachine, handleOtherPrologue, w0, hp]
  refine ⟨?_, hcall, ?_⟩
  · rw [htr]
    simp [otherEvents, r, mcall]
  · intro hr
    have hm := handleOther_unhandled_m env i t w0 hr
    rw [← hv] at hm
    have hdrop : (visit env i w).trace.drop w.trace.length =
        enterEvents env i w ++ otherEvents env i t w0 := by
      rw [htr, enterSlot_trace, List.append_assoc, List.drop_left' rfl]
      rfl
    have hev : otherEvents env i t w0 =
        [.storeRax i 0, .callUserCall i t false,
         .log (.unknownSyscall i (r.2.processes i).frame.rcxArg0), .storeRax i 0,
         .storeSchedulable i true] := by
      have hr' : (env.userCallHandled i t (userCallMachine i w0)).1 = false := hr
      simp [otherEvents, hr', r, mcall]
    have hpres : ((visit env i w).m.processes i).present = (r.2.processes i).present := by
      rw [hm]; simp [r, mcall]
    refine ⟨hm, by rw [hm]; simp, by rw [hm]; simp, hpres, ?_, ?_, ?_, ?_⟩
    · intro hkeep
      rw [hpres, hkeep]
      exact hcall.2.2
    · exact ⟨(r.2.processes i).frame.rcxArg0, by rw [hdrop, hev]; simp⟩
    · intro e he v
      rw [hdrop, hev] at he
      simp [enterEvents] at he
      rcases he with rfl | rfl | rfl | rfl | rfl | rfl | rfl | rfl | rfl <;> simp
    · intro e he
      rw [hdrop, hev] at he
      simp [enterEvents] at he
      rcases he with rfl | rfl | rfl | rfl | rfl | rfl | rfl | rfl | rfl <;> simp

/-- Slot 5 of the sample machine asks for the extension syscall 42, which
the sample handler table does not handle. -/
theorem extension_syscall_unhandled_witness :
    (((sampleWorld 5 (sampleProcess (.Other 42) 0)).m.processes 5).present = true ∧
      ((sampleWorld 5 (sampleProcess (.Other 42) 0)).m.processes 5).syscallToHandle =
        .Other 42) ∧
    ((sampleWorld 5 (sampleProcess (.Other 42) 0)).m.processes 5).frame.raxReturn = 5 ∧
    ((visit sampleEnv 5 (sampleWorld 5 (sampleProcess (.Other 42) 0))).m.processes 5).frame.raxReturn
      = 0 ∧
    ((visit sampleEnv 5 (sampleWorld 5 (sampleProcess (.Other 42) 0))).m.processes 5).schedulable
      = true ∧
    ((visit sampleEnv 5 (sampleWorld 5 (sampleProcess (.Other 42) 0))).m.processes 5).present
      = true := by
  have hp : ((sampleWorld 5 (sampleProcess (.Other 42) 0)).m.processes 5).present = true := by
    simp [sampleWorld, sampleMachine_same, sampleProcess]
  have ht : ((sampleWorld 5 (sampleProcess (.Other 42) 0)).m.processes 5).syscallToHandle =
      .Other 42 := by
    simp [sampleWorld, sampleMachine_same, sampleProcess]
  have h := (extension_syscall_unhandled sampleEnv (sampleWorld 5 (sampleProcess (.Other 42) 0))
    5 (.Other 42) hp ht (by decide) (by decide) (by decide) (by decide)).2.2 rfl
  exact ⟨⟨hp, ht⟩, by simp [sampleWorld, sampleMachine_same, sampleProcess, sampleFrame],
    h.2.1, h.2.2.1, h.2.2.2.2.1 rfl⟩

/-! ## Locality of a visit -/

theorem localTo_of_isLog (i : Nat) (e : Event) (h : e.isLog = true) : e.localTo i := by
  cases e <;> simp_all [Event.isLog, Event.localTo, Event.target]

theorem branchEvents_localTo (env : Env) (i : Nat) (t : TofitaSyscalls) (w : World) :
    ∀ e ∈ branchEvents env i t w, e.localTo i := by
  intro e he
  unfold branchEvents at he
  split at he
  · unfold debugLogEvents at he
    simp only [List.mem_append, List.mem_cons, List.mem_singleton, List.not_mem_nil,
      or_false] at he
    rcases he with ((rfl | rfl | rfl) | he) | rfl | rfl
    any_goals simp [Event.localTo, Event.target]
    split at he
    · simp only [List.mem_append, List.mem_cons, List.mem_singleton, List.not_mem_nil,
        or_false] at he
      rcases he with (rfl | rfl) | he
      any_goals simp [Event.localTo, Event.target]
      split at he
      · simp only [List.mem_cons, List.mem_singleton, List.not_mem_nil, or_false] at he
        rcases he with rfl | rfl <;> simp [Event.localTo, Event.target]
      · simp at he
    · simp at he
  · split at he
    · simp only [exitProcessEvents, List.mem_cons, List.mem_singleton, List.not_mem_nil,
        or_false] at he
      rcases he with rfl | rfl | rfl | rfl | rfl <;> simp [Event.localTo, Event.target]
    · split at he
      · simp only [cpuEvents, List.mem_append, List.mem_cons, List.mem_singleton,
          List.not_mem_nil, or_false] at he
        rcases he with ((rfl | rfl | rfl) | he) | rfl | rfl | rfl
        any_goals simp [Event.localTo, Event.target]
        exact localTo_of_isLog i e (cpuDiagnostics_isLog _ e he)
      · simp only [otherEvents, List.mem_append, List.mem_cons, List.mem_singleton,
          List.not_mem_nil, or_false] at he
        rcases he with (rfl | rfl) | he
        any_goals simp [Event.localTo, Event.target]
        split at he
        · simp only [List.mem_cons, List.mem_singleton, List.not_mem_nil, or_false] at he
          rcases he with rfl | rfl | rfl <;> simp [Event.localTo, Event.target]
        · simp at he

theorem visitEvents_localTo (env : Env) (i : Nat) (w : World) :
    ∀ e ∈ visitEvents env i w, e.localTo i := by
  intro e he
  unfold visitEvents at he
  split at he
  · rcases List.mem_append.1 he with he | he
    · simp only [enterEvents, List.mem_cons, List.mem_singleton, List.not_mem_nil,
        or_false] at he
      rcases he with rfl | rfl | rfl | rfl <;> simp [Event.localTo, Event.target]
    · exact branchEvents_localTo env i _ _ e he
  · simp at he

theorem handleOtherPrologue_other (i j : Nat) (w : World) (h : j ≠ i) :
    (userCallMachine i w).processes j = w.m.processes j := by
  simp [userCallMachine, handleOtherPrologue, storeRax_other _ _ _ _ h]

theorem branch_other_slots (env : Env) (i : Nat) (t : TofitaSyscalls) (w : World)
    (hd : ∀ m j, j ≠ i → (env.Process_destroy i m).processes j = m.processes j)
    (hu : ∀ j, j ≠ i → (env.userCallHandled i t (userCallMachine i w)).2.processes j =
      (userCallMachine i w).processes j) :
    ∀ j, j ≠ i → (branch env i t w).m.processes j = w.m.processes j := by
  intro j hj
  unfold branch
  split
  · rw [handleDebugLog_m, setProcess_other _ _ _ _ hj]
  · split
    · simp only [handleExitProcess, callDestroy_m]
      rw [hd _ _ hj, exitPrologue_other _ _ _ _ hj]
    · split
      · simp only [handleCpu, callDestroy_m]
        rw [hd _ _ hj, cpuPrologue_other _ _ _ _ hj]
      · by_cases hr : (env.userCallHandled i t (userCallMachine i w)).1 = false
        · rw [handleOther_unhandled_m env i t w hr, setProcess_other _ _ _ _ hj,
            setProcess_other _ _ _ _ hj, hu j hj, handleOtherPrologue_other _ _ _ hj]
        · simp only [Bool.not_eq_false] at hr
          rw [handleOther_handled_m env i t w hr, hu j hj, handleOtherPrologue_other _ _ _ hj]

theorem visit_drop (env : Env) (i : Nat) (w : World) :
    (visit env i w).trace.drop w.trace.length = visitEvents env i w := by
  rw [visit_trace, List.drop_left' rfl]

/-- C6. Handling a present slot `i` whose request is `DebugLog`,
`ExitProcess`, `Cpu`, or an extension tag that `userCallHandled` reports
unhandled. Each effect of the visit is a store to slot `i`, a call that is
passed slot `i`, a store to `pml4kernelThread`, a write of CR3, or writes
nothing of the kernel state. With `Process_destroy(i)` and the unhandled call
writing no other slot than `i`, every other slot `j` is after the visit
what it was before, in all its fields. -/
theorem recovery_is_local (env : Env) (w : World) (i : Nat)
    (hp : (w.m.processes i).present = true)
    (hd : ∀ m j, j ≠ i → (env.Process_destroy i m).processes j = m.processes j)
    (hcase : (w.m.processes i).syscallToHandle = .DebugLog ∨
      (w.m.processes i).syscallToHandle = .ExitProcess ∨
      (w.m.processes i).syscallToHandle = .Cpu ∨
      ((w.m.processes i).syscallToHandle ≠ .Noop ∧
        (env.userCallHandled i (w.m.processes i).syscallToHandle
          (userCallMachine i (enterSlot env i w))).1 = false ∧
        ∀ j, j ≠ i →
          (env.userCallHandled i (w.m.processes i).syscallToHandle
            (userCallMachine i (enterSlot env i w))).2.processes j =
          (userCallMachine i (enterSlot env i w)).processes j)) :
    (∀ e ∈ (visit env i w).trace.drop w.trace.length, e.localTo i) ∧
    (∀ j, j ≠ i → (visit env i w).m.processes j = w.m.processes j) := by
  refine ⟨fun e he => ?_, fun j hj => ?_⟩
  · rw [visit_drop] at he
    exact visitEvents_localTo env i w e he
  · have hpend : pending w.m i = true := by
      rcases hcase with h | h | h | h
      · simp [pending, hp, h]
      · simp [pending, hp, h]
      · simp [pending, hp, h]
      · simp [pending, hp, h.1]
    rw [visit_pending env i w hpend]
    rcases hcase with h | h | h | h
    · rw [h]
      simp only [branch, if_true]
      rw [handleDebugLog_m, setProcess_other _ _ _ _ hj, enterSlot_other _ _ _ _ hj]
    · rw [h]
      simp only [branch, if_true, reduceCtorEq, if_false]
      simp only [handleExitProcess, callDestroy_m]
      rw [hd _ _ hj, exitPrologue_other _ _ _ _ hj, enterSlot_other _ _ _ _ hj]
    · rw [h]
      simp only [branch, if_true, reduceCtorEq, if_false]
      simp only [handleCpu, callDestroy_m]
      rw [hd _ _ hj, cpuPrologue_other _ _ _ _ hj, enterSlot_other _ _ _ _ hj]
    · rw [branch_other_slots env i _ _ hd h.2.2 j hj, enterSlot_other _ _ _ _ hj]

/-- Slot 7 of the sample machine exits; slot 0 is what it was. -/
theorem recovery_is_local_witness :
    ((sampleWorld 7 (sampleProcess .ExitProcess 0)).m.processes 7).present = true ∧
    (visit sampleEnv 7 (sampleWorld 7 (sampleProcess .ExitProcess 0))).m.processes 0 =
      (sampleWorld 7 (sampleProcess .ExitProcess 0)).m.processes 0 := by
  have hp : ((sampleWorld 7 (sampleProcess .ExitProcess 0)).m.processes 7).present = true := by
    simp [sampleWorld, sampleMachine_same, sampleProcess]
  exact ⟨hp, (recovery_is_local sampleEnv (sampleWorld 7 (sampleProcess .ExitProcess 0)) 7 hp
    (fun m j hj => (sampleEnv_destroyIsLocal 7 m).1 j hj)
    (Or.inr (Or.inl (by simp [sampleWorld, sampleMachine_same, sampleProcess])))).2 0
    (by decide)⟩

/-! ### The machine after a visit, by branch -/

/-- The machine after the visit of a pending slot is one of: the entered
machine with `schedulable` set (`DebugLog`); `Process_destroy` applied to a
machine that differs from the first one in slot `i` only, where it is absent
with tag `Noop` (`ExitProcess`, `Cpu`); or what `userCallHandled` returned,
with `raxReturn` and `schedulable` stored when it reports unhandled, the call
being made in a machine that differs from the first one in slot `i` only,
where the tag is `Noop` and `raxReturn` is 0. -/
theorem visit_machine (env : Env) (i : Nat) (w : World) (h : pending w.m i = true) :
    ((visit env i w).m =
        setProcess i (fun p => { p with schedulable := true }) (enterSlot env i w).m) ∨
    (∃ pre : Machine, (visit env i w).m = env.Process_destroy i pre ∧
      pre.processes i = { w.m.processes i with syscallToHandle := .Noop, present := false } ∧
      ∀ j, j ≠ i → pre.processes j = w.m.processes j) ∨
    (∃ (mcall : Machine) (t : TofitaSyscalls),
      mcall.processes i = { w.m.processes i with
        syscallToHandle := .Noop,
        frame := { (w.m.processes i).frame with raxReturn := 0 } } ∧
      (∀ j, j ≠ i → mcall.processes j = w.m.processes j) ∧
      ((visit env i w).m = (env.userCallHandled i t mcall).2 ∨
       (visit env i w).m =
        setProcess i (fun p => { p with schedulable := true })
          (setProcess i (fun p => { p with frame := { p.frame with raxReturn := 0 } })
            (env.userCallHandled i t mcall).2))) := by
  have hp : (w.m.processes i).present = true := by
    simp [pending] at h; exact h.1
  rw [visit_pending env i w h]
  by_cases h1 : (w.m.processes i).syscallToHandle = .DebugLog
  · left
    simp only [branch, h1, if_true]
    exact handleDebugLog_m env i _
  · by_cases h2 : (w.m.processes i).syscallToHandle = .ExitProcess ∨
        (w.m.processes i).syscallToHandle = .Cpu
    · right; left
      obtain ⟨pre, _, _, hv, _, _, hi, ho, _, _⟩ := termination_visit env w i hp h2
      rw [← visit_pending env i w h, hv]
      exact ⟨pre.m, rfl, hi, ho⟩
    · right; right
      have h3 : (w.m.processes i).syscallToHandle ≠ .ExitProcess := fun e => h2 (Or.inl e)
      have h4 : (w.m.processes i).syscallToHandle ≠ .Cpu := fun e => h2 (Or.inr e)
      refine ⟨userCallMachine i (enterSlot env i w), (w.m.processes i).syscallToHandle, ?_,
        fun j hj => ?_, ?_⟩
      · simp [userCallMachine, handleOtherPrologue]
      · rw [handleOtherPrologue_other _ _ _ hj, enterSlot_other _ _ _ _ hj]
      · simp only [branch, h1, h3, h4, if_false]
        by_cases hr : (env.userCallHandled i (w.m.processes i).syscallToHandle
            (userCallMachine i (enterSlot env i w))).1 = false
        · right; exact handleOther_unhandled_m env i _ _ hr
        · left
          simp only [Bool.not_eq_false] at hr
          exact handleOther_handled_m env i _ _ hr

/-! ## The idle process -/

theorem idleReady_congr {m m' : Machine} (h : m'.processes 0 = m.processes 0) :
    IdleReady m' ↔ IdleReady m := by
  simp [IdleReady, h]

theorem visit_idleReady (env : Env) (hk : KeepsIdleReady env) (i : Nat) (hi : i ≠ 0) (w : World)
    (h : IdleReady w.m) : IdleReady (visit env i w).m := by
  have h0 : (0 : Nat) ≠ i := Ne.symm hi
  by_cases hpend : pending w.m i = true
  · rcases visit_machine env i w hpend with hm | ⟨pre, hm, -, ho⟩ | ⟨mcall, t, -, ho, hm | hm⟩
    · rw [hm]
      refine (idleReady_congr ?_).2 h
      rw [setProcess_other _ _ _ _ h0, enterSlot_other _ _ _ _ h0]
    · rw [hm]
      exact hk.1 i pre hi ((idleReady_congr (ho 0 h0)).2 h)
    · rw [hm]
      exact hk.2.1 i t mcall hi ((idleReady_congr (ho 0 h0)).2 h)
    · rw [hm]
      refine (idleReady_congr ?_).2 (hk.2.1 i t mcall hi ((idleReady_congr (ho 0 h0)).2 h))
      rw [setProcess_other _ _ _ _ h0, setProcess_other _ _ _ _ h0]
  · simp only [Bool.not_eq_true] at hpend
    rw [visit_idle env i w hpend]
    exact h

theorem visitMany_idleReady (env : Env) (hk : KeepsIdleReady env) : ∀ (n index : Nat) (w : World),
    1 ≤ index → IdleReady w.m → IdleReady (visitMany env n index w).m := by
  intro n
  induction n with
  | zero => intro _ w _ h; exact h
  | succ n ih =>
    intro index w hi h
    simp only [visitMany]
    exact ih (index + 1) _ (by omega) (visit_idleReady env hk index (by omega) w h)

theorem switchToUserProcess_m (env : Env) (w : World) :
    (switchToUserProcess env w).m =
      if (env.getNextProcess w.m).1 = 0 then
        (env.getNextProcess (env.markAllProcessessSchedulable (env.getNextProcess w.m).2)).2
      else (env.getNextProcess w.m).2 := by
  unfold switchToUserProcess
  split <;> simp_all [callGetNext, callMarkAll]

theorem switchToUserProcess_trace (env : Env) (w : World) :
    (switchToUserProcess env w).trace = w.trace ++
      if (env.getNextProcess w.m).1 = 0 then
        [.callGetNext 0, .callMarkAll,
         .callGetNext
          (env.getNextProcess (env.markAllProcessessSchedulable (env.getNextProcess w.m).2)).1,
         .yield]
      else [.callGetNext (env.getNextProcess w.m).1, .yield] := by
  unfold switchToUserProcess
  split <;> simp_all [callGetNext, callMarkAll]

theorem switchToUserProcess_idleReady (env : Env) (hk : KeepsIdleReady env) (w : World)
    (h : IdleReady w.m) : IdleReady (switchToUserProcess env w).m := by
  rw [switchToUserProcess_m]
  split
  · exact hk.2.2.1 _ (hk.2.2.2 _ (hk.2.2.1 _ h))
  · exact hk.2.2.1 _ h

theorem visitManyEvents_localTo (env : Env) : ∀ (n index : Nat) (w : World),
    ∀ e ∈ visitManyEvents env n index w, ∃ i, index ≤ i ∧ i < index + n ∧ e.localTo i := by
  intro n
  induction n with
  | zero => intro _ _ e he; simp [visitManyEvents] at he
  | succ n ih =>
    intro index w e he
    simp only [visitManyEvents, List.mem_append] at he
    rcases he with he | he
    · exact ⟨index, le_refl _, by omega, visitEvents_localTo env index w e he⟩
    · obtain ⟨i, h1, h2, h3⟩ := ih (index + 1) _ e he
      exact ⟨i, by omega, by omega, h3⟩

theorem visitManyEvents_target (env : Env) (n index : Nat) (w : World) :
    ∀ e ∈ visitManyEvents env n index w,
      e.target ≠ .scheduler ∧ ∀ j, e.target = .slot j → index ≤ j ∧ j < index + n := by
  intro e he
  obtain ⟨i, h1, h2, h3⟩ := visitManyEvents_localTo env n index w e he
  constructor
  · intro hs
    simp [Event.localTo, hs] at h3
  · intro j hj
    simp only [Event.localTo, hj, Target.slot.injEq, reduceCtorEq, or_false] at h3
    omega

theorem kernelThreadIteration_eq (env : Env) (w : World) :
    kernelThreadIteration env w = some (switchToUserProcess env (visitMany env 254 1 w)) := by
  simp [kernelThreadIteration, kernelThreadScan_eq]

/-- C7. Right after `kernelInit` slot 0 is present and schedulable with tag
`Noop` and root `pages::pml4entries`, `currentProcess` is 0,
`pml4kernelThread` is the idle root, and every slot from 1 on is zeroed, so
not present. One turn of `kernelThread` (the scan, then
`switchToUserProcess`) returns and keeps slot 0 present and schedulable, the
collaborators keeping it so: no effect of the scan is a store to slot 0 or a
call that is passed slot 0, and the only other effects are the calls of the
scheduler functions and the yield. -/
theorem idle_slot_invariant (env : Env) (w : World) :
    (∀ (wps : Nat) (zeroTag : TofitaSyscalls) (cr3 : Nat) (params : KernelParams),
      IdleReady (kernelInit wps zeroTag cr3 params) ∧
      ((kernelInit wps zeroTag cr3 params).processes 0).syscallToHandle = .Noop ∧
      ((kernelInit wps zeroTag cr3 params).processes 0).pml4 =
        (kernelInit wps zeroTag cr3 params).pml4entries ∧
      (kernelInit wps zeroTag cr3 params).currentProcess = 0 ∧
      (kernelInit wps zeroTag cr3 params).pml4kernelThread =
        ((kernelInit wps zeroTag cr3 params).processes 0).pml4 ∧
      (∀ j, 1 ≤ j → (kernelInit wps zeroTag cr3 params).processes j = zeroProcess zeroTag ∧
        ((kernelInit wps zeroTag cr3 params).processes j).present = false)) ∧
    (KeepsIdleReady env → IdleReady w.m →
      ∃ w1 w2, kernelThreadScan env w = some w1 ∧ kernelThreadIteration env w = some w2 ∧
      w2 = switchToUserProcess env w1 ∧
      IdleReady w1.m ∧ IdleReady w2.m ∧
      (∀ e ∈ w1.trace.drop w.trace.length, e.target ≠ .slot 0 ∧ e.target ≠ .scheduler) ∧
      (∀ e ∈ w2.trace.drop w1.trace.length, e.target = .scheduler)) := by
  constructor
  · intro wps zeroTag cr3 params
    refine ⟨by simp [IdleReady, kernelInit_idle], by simp [kernelInit_idle],
      by simp [kernelInit_idle, kernelInit], rfl, rfl, fun j hj => ?_⟩
    rw [kernelInit_other _ _ _ _ j (by omega)]
    exact ⟨rfl, rfl⟩
  · intro hk h
    refine ⟨visitMany env 254 1 w, switchToUserProcess env (visitMany env 254 1 w),
      kernelThreadScan_eq env w, kernelThreadIteration_eq env w, rfl,
      visitMany_idleReady env hk 254 1 w (le_refl _) h,
      switchToUserProcess_idleReady env hk _ (visitMany_idleReady env hk 254 1 w (le_refl _) h),
      ?_, ?_⟩
    · intro e he
      rw [visitMany_trace, List.drop_left' rfl] at he
      constructor
      · intro h0
        have := (visitManyEvents_target env 254 1 w e he).2 0 h0
        omega
      · exact (visitManyEvents_target env 254 1 w e he).1
    · intro e he
      rw [switchToUserProcess_trace, List.drop_left' rfl] at he
      split at he <;> simp at he <;> rcases he with rfl | rfl | rfl | rfl <;> rfl

theorem sampleEnv_keepsIdleReady : KeepsIdleReady sampleEnv := by
  refine ⟨fun i m hi h => ?_, fun i t m _ h => h, fun m h => h, fun m h => ?_⟩
  · refine (idleReady_congr ?_).2 h
    simp [sampleEnv, setProcess_other _ _ _ _ (Ne.symm hi)]
  · simp only [IdleReady, sampleEnv, specMarkAllProcessessSchedulable] at h ⊢
    simp [h.1]

/-- The sample machine with an `ExitProcess` pending in slot 7: the turn
returns with the idle process present and schedulable. -/
theorem idle_slot_invariant_witness :
    (KeepsIdleReady sampleEnv ∧ IdleReady (sampleWorld 7 (sampleProcess .ExitProcess 0)).m) ∧
    ∃ w2, kernelThreadIteration sampleEnv (sampleWorld 7 (sampleProcess .ExitProcess 0)) = some w2 ∧
      IdleReady w2.m := by
  have h : IdleReady (sampleWorld 7 (sampleProcess .ExitProcess 0)).m := by
    simp [IdleReady, sampleWorld, sampleMachine_idle]
  obtain ⟨w1, w2, _, h2, _, _, h5, _⟩ :=
    (idle_slot_invariant sampleEnv (sampleWorld 7 (sampleProcess .ExitProcess 0))).2
      sampleEnv_keepsIdleReady h
  exact ⟨⟨sampleEnv_keepsIdleReady, h⟩, w2, h2, h5⟩

/-! ## `switchToUserProcess` -/

theorem specGetNextProcess_none (n : Nat) (m : Machine)
    (h : ∀ j, 1 ≤ j → j < n → ((m.processes j).present && (m.processes j).schedulable) = false) :
    (specGetNextProcess n m).1 = 0 := by
  unfold specGetNextProcess
  simp only
  rw [List.find?_eq_none.2]
  · rfl
  · intro j hj
    simp only [List.mem_append, List.mem_range'_1] at hj
    have := h j (by omega) (by omega)
    simp [this]

theorem specGetNextProcess_first (m : Machine) (hc : m.currentProcess = 0)
    (h : ((m.processes 1).present && (m.processes 1).schedulable) = true) :
    (specGetNextProcess 256 m).1 = 1 := by
  unfold specGetNextProcess
  have e : List.range' 1 255 = 1 :: List.range' 2 254 := rfl
  simp only [hc, Nat.zero_add, Nat.reduceSub, Nat.zero_le, min_eq_left, List.range'_zero,
    List.append_nil, e, List.find?_cons, h]
  rfl

/-- C8. `switchToUserProcess` with arbitrary collaborators. It calls
`getNextProcess` once. When the answer is not 0 the only other effect is the
yield. When the answer is 0 it calls `markAllProcessessSchedulable` once, then
`getNextProcess` once more, then yields, whatever the second answer. So the
yield happens exactly once and is the last effect, and
`markAllProcessessSchedulable` is called once when the first answer is 0 and
not at all otherwise; the function is total. With the scheduler of the spec
for 256 slots and the slots 1 to 255 all present and not schedulable, the
first answer is 0, there is one reset, and the second answer is 1, the lowest
present slot from 1 on. -/
theorem switch_resets_at_most_once (env : Env) (w : World) :
    ((env.getNextProcess w.m).1 ≠ 0 →
      (switchToUserProcess env w).trace =
        w.trace ++ [.callGetNext (env.getNextProcess w.m).1, .yield]) ∧
    ((env.getNextProcess w.m).1 = 0 →
      (switchToUserProcess env w).trace = w.trace ++
        [.callGetNext 0, .callMarkAll,
         .callGetNext
          (env.getNextProcess (env.markAllProcessessSchedulable (env.getNextProcess w.m).2)).1,
         .yield]) ∧
    ((switchToUserProcess env w).trace.drop w.trace.length).count .yield = 1 ∧
    ((switchToUserProcess env w).trace.drop w.trace.length).getLast? = some .yield ∧
    ((switchToUserProcess env w).trace.drop w.trace.length).count .callMarkAll =
      (if (env.getNextProcess w.m).1 = 0 then 1 else 0) ∧
    (((switchToUserProcess env w).trace.drop w.trace.length).filter
        (fun e => match e with | .callGetNext _ => true | _ => false)).length =
      (if (env.getNextProcess w.m).1 = 0 then 2 else 1) ∧
    ((∀ j, 1 ≤ j → j < 256 →
        (w.m.processes j).present = true ∧ (w.m.processes j).schedulable = false) →
      (switchToUserProcess
          (withScheduler env (specGetNextProcess 256) specMarkAllProcessessSchedulable) w).trace =
        w.trace ++ [.callGetNext 0, .callMarkAll, .callGetNext 1, .yield]) := by
  have htr := switchToUserProcess_trace env w
  refine ⟨fun h => ?_, fun h => ?_, ?_, ?_, ?_, ?_, fun h => ?_⟩
  · rw [htr]; simp [h]
  · rw [htr]; simp [h]
  · rw [htr, List.drop_left' rfl]
    split <;> simp [List.count_cons]
  · rw [htr, List.drop_left' rfl]
    split <;> simp
  · rw [htr, List.drop_left' rfl]
    split <;> simp [List.count_cons]
  · rw [htr, List.drop_left' rfl]
    split <;> simp
  · rw [switchToUserProcess_trace]
    have h1 : (specGetNextProcess 256 w.m).1 = 0 :=
      specGetNextProcess_none 256 w.m (fun j a b => by simp [(h j a b).2])
    have h2 : (specGetNextProcess 256
        (specMarkAllProcessessSchedulable (specGetNextProcess 256 w.m).2)).1 = 1 := by
      apply specGetNextProcess_first
      · simp only [specMarkAllProcessessSchedulable]
        exact h1
      · simp [specMarkAllProcessessSchedulable, specGetNextProcess, (h 1 (by decide) (by decide)).1]
    simp only [withScheduler, h1, h2, if_true]

/-- Scenario C of the spec on the crowded machine. -/
theorem switch_resets_at_most_once_witness :
    (∀ j, 1 ≤ j → j < 256 →
      (crowdedMachine.processes j).present = true ∧
        (crowdedMachine.processes j).schedulable = false) ∧
    (switchToUserProcess sampleEnv { m := crowdedMachine, trace := [] }).trace =
      [.callGetNext 0, .callMarkAll, .callGetNext 1, .yield] := by
  have h : ∀ j, 1 ≤ j → j < 256 →
      (crowdedMachine.processes j).present = true ∧
        (crowdedMachine.processes j).schedulable = false := by
    intro j h1 _
    have : j ≠ 0 := by omega
    simp [crowdedMachine, this, sampleProcess]
  exact ⟨h, (switch_resets_at_most_once sampleEnv { m := crowdedMachine, trace := [] }).2.2.2.2.2.2
    h⟩

/-! ## The range of the scan -/

theorem capturedSlots_append (a b : List Event) :
    capturedSlots (a ++ b) = capturedSlots a ++ capturedSlots b := by
  simp [capturedSlots, List.filterMap_append]

theorem capturedSlots_of_logs : ∀ (l : List Event), (∀ e ∈ l, e.isLog = true) →
    capturedSlots l = [] := by
  intro l
  induction l with
  | nil => intro _; rfl
  | cons e rest ih =>
    intro h
    have he := h e (List.mem_cons_self _ _)
    have hr := ih (fun x hx => h x (List.mem_cons_of_mem _ hx))
    cases e <;> simp_all [capturedSlots, Event.isLog]

theorem capturedSlots_branchEvents (env : Env) (i : Nat) (t : TofitaSyscalls) (w : World) :
    capturedSlots (branchEvents env i t w) = [] := by
  unfold branchEvents
  split
  · unfold debugLogEvents
    simp only []
    split <;> [split; skip] <;> simp [capturedSlots]
  · split
    · simp [exitProcessEvents, capturedSlots]
    · split
      · unfold cpuEvents
        rw [capturedSlots_append, capturedSlots_append,
          capturedSlots_of_logs _ (cpuDiagnostics_isLog _)]
        simp [capturedSlots]
      · unfold otherEvents
        simp only []
        split <;> simp [capturedSlots]

theorem capturedSlots_visitEvents (env : Env) (i : Nat) (w : World) :
    capturedSlots (visitEvents env i w) = if pending w.m i = true then [i] else [] := by
  unfold visitEvents
  split
  · rw [capturedSlots_append, capturedSlots_branchEvents]
    simp [enterEvents, capturedSlots]
  · rfl

theorem capturedSlots_visitManyEvents (env : Env) : ∀ (n index : Nat) (w : World),
    (capturedSlots (visitManyEvents env n index w)).Pairwise (· < ·) ∧
    ∀ j ∈ capturedSlots (visitManyEvents env n index w), index ≤ j ∧ j < index + n := by
  intro n
  induction n with
  | zero => intro _ _; simp [visitManyEvents, capturedSlots]
  | succ n ih =>
    intro index w
    obtain ⟨h1, h2⟩ := ih (index + 1) (visit env index w)
    simp only [visitManyEvents, capturedSlots_append, capturedSlots_visitEvents]
    constructor
    · rw [List.pairwise_append]
      refine ⟨by split <;> simp, h1, fun a ha b hb => ?_⟩
      have := h2 b hb
      split at ha <;> simp at ha
      omega
    · intro j hj
      rcases List.mem_append.1 hj with hj | hj
      · split at hj <;> simp at hj
        omega
      · have := h2 j hj
        omega

theorem visitManyEvents_add (env : Env) (a b : Nat) : ∀ (index : Nat) (w : World),
    visitManyEvents env (a + b) index w =
      visitManyEvents env a index w ++
        visitManyEvents env b (index + a) (visitMany env a index w) := by
  induction a with
  | zero => intro index w; simp [visitMany, visitManyEvents]
  | succ a ih =>
    intro index w
    have h : a + 1 + b = (a + b) + 1 := by omega
    have h' : index + (a + 1) = index + 1 + a := by omega
    rw [h]
    simp only [visitMany, visitManyEvents]
    rw [ih, List.append_assoc, h']

theorem capturedSlots_scan_mem (env : Env) (w : World) (j : Nat) :
    j ∈ capturedSlots (visitManyEvents env 254 1 w) ↔
      1 ≤ j ∧ j ≤ 254 ∧ pending (visitMany env (j - 1) 1 w).m j = true := by
  constructor
  · intro hj
    have hb := (capturedSlots_visitManyEvents env 254 1 w).2 j hj
    refine ⟨hb.1, by omega, ?_⟩
    have e : 254 = (j - 1) + (1 + (254 - j)) := by omega
    rw [e, visitManyEvents_add, visitManyEvents_add, capturedSlots_append,
      capturedSlots_append] at hj
    have e1 : 1 + (j - 1) = j := by omega
    rw [e1] at hj
    simp only [List.mem_append] at hj
    rcases hj with hj | hj | hj
    · have := (capturedSlots_visitManyEvents env (j - 1) 1 w).2 j hj
      omega
    · simp only [visitManyEvents, List.append_nil, capturedSlots_visitEvents] at hj
      split at hj
      · assumption
      · simp at hj
    · have := (capturedSlots_visitManyEvents env (254 - j) (j + 1) _).2 j hj
      omega
  · rintro ⟨h1, h2, h3⟩
    have e : 254 = (j - 1) + (1 + (254 - j)) := by omega
    rw [e, visitManyEvents_add, visitManyEvents_add, capturedSlots_append,
      capturedSlots_append]
    have e1 : 1 + (j - 1) = j := by omega
    rw [e1]
    simp only [List.mem_append]
    right; left
    simp [visitManyEvents, capturedSlots_visitEvents, h3]

theorem kernelThread_returns (env : Env) : ∀ (turns : Nat) (w : World),
    (kernelThread env turns w).isSome = true := by
  intro turns
  induction turns with
  | zero => intro _; rfl
  | succ n ih =>
    intro w
    simp only [kernelThread, kernelThreadIteration_eq, Option.some_bind]
    exact ih _

/-- C9, on the code. For every table the scan returns, the turn is the scan
followed by `switchToUserProcess`, and the slots handled are, in strictly
ascending order, the slots `j` with `1 ≤ j ≤ 254` that are pending when the
loop reaches them. Slot 255 is not among them: on the sample machine with a
process in slot 255 that has asked for `ExitProcess`, the scan does nothing,
the turn handles no slot, and the request is still pending when the thread
yields. -/
theorem scan_stops_before_slot_255 :
    (∀ (env : Env) (w : World), ∃ w1,
      kernelThreadScan env w = some w1 ∧
      kernelThreadIteration env w = some (switchToUserProcess env w1) ∧
      (∀ turns, (kernelThread env turns w).isSome = true) ∧
      (capturedSlots (w1.trace.drop w.trace.length)).Pairwise (· < ·) ∧
      (∀ j, j ∈ capturedSlots (w1.trace.drop w.trace.length) ↔
        1 ≤ j ∧ j ≤ 254 ∧ pending (visitMany env (j - 1) 1 w).m j = true)) ∧
    (pending (sampleWorld 255 (sampleProcess .ExitProcess 0)).m 255 = true ∧
      kernelThreadScan sampleEnv (sampleWorld 255 (sampleProcess .ExitProcess 0)) =
        some (sampleWorld 255 (sampleProcess .ExitProcess 0)) ∧
      ∃ w2, kernelThreadIteration sampleEnv (sampleWorld 255 (sampleProcess .ExitProcess 0)) =
          some w2 ∧
        capturedSlots w2.trace = [] ∧
        w2.trace.getLast? = some .yield ∧
        pending w2.m 255 = true) := by
  constructor
  · intro env w
    refine ⟨visitMany env 254 1 w, kernelThreadScan_eq env w, kernelThreadIteration_eq env w,
      fun turns => kernelThread_returns env turns w, ?_, ?_⟩
    · rw [visitMany_trace, List.drop_left' rfl]
      exact (capturedSlots_visitManyEvents env 254 1 w).1
    · intro j
      rw [visitMany_trace, List.drop_left' rfl]
      exact capturedSlots_scan_mem env w j
  · have hpend : pending (sampleWorld 255 (sampleProcess .ExitProcess 0)).m 255 = true := by
      simp [pending, sampleWorld, sampleMachine_same, sampleProcess]
    have hscan : visitMany sampleEnv 254 1 (sampleWorld 255 (sampleProcess .ExitProcess 0)) =
        sampleWorld 255 (sampleProcess .ExitProcess 0) :=
      visitMany_idle sampleEnv 254 1 _
        (fun j h1 h2 => sampleMachine_others_idle 255 _ j h1 (by omega) (by omega))
    refine ⟨hpend, by rw [kernelThreadScan_eq, hscan], _, by rw [kernelThreadIteration_eq, hscan],
      ?_, ?_, ?_⟩
    · rw [switchToUserProcess_trace]
      split <;> simp [capturedSlots, sampleWorld]
    · rw [switchToUserProcess_trace]
      split <;> simp
    · rw [switchToUserProcess_m]
      split
      · exact hpend
      · exact hpend

/-! ## A request is dispatched once -/

theorem pending_of_eq {m m' : Machine} {i j : Nat}
    (h1 : (m'.processes j).present = (m.processes i).present)
    (h2 : (m'.processes j).syscallToHandle = (m.processes i).syscallToHandle) :
    pending m' j = pending m i := by
  simp [pending, h1, h2]

theorem pending_setProcess_keep (i j : Nat) (f : Process → Process) (m : Machine)
    (h1 : ∀ p, (f p).present = p.present)
    (h2 : ∀ p, (f p).syscallToHandle = p.syscallToHandle) :
    pending (setProcess i f m) j = pending m j := by
  by_cases h : j = i
  · subst h
    exact pending_of_eq (by simp [h1]) (by simp [h2])
  · exact pending_congr (setProcess_other _ _ _ _ h)

theorem pending_setSchedulable (i j : Nat) (v : Bool) (m : Machine) :
    pending (setProcess i (fun p => { p with schedulable := v }) m) j = pending m j :=
  pending_setProcess_keep i j _ m (fun _ => rfl) (fun _ => rfl)

theorem pending_setRax (i j v : Nat) (m : Machine) :
    pending (setProcess i (fun p => { p with frame := { p.frame with raxReturn := v } }) m) j =
      pending m j :=
  pending_setProcess_keep i j _ m (fun _ => rfl) (fun _ => rfl)

theorem not_pending_of_noop {m : Machine} {j : Nat}
    (h : (m.processes j).syscallToHandle = .Noop) : pending m j = false := by
  simp [pending, h]

theorem not_pending_of_absent {m : Machine} {j : Nat}
    (h : (m.processes j).present = false) : pending m j = false := by
  simp [pending, h]

theorem visit_noRequest (env : Env) (hn : RecordsNoRequest env) (i : Nat) (w : World) :
    pending (visit env i w).m i = false ∧
    ∀ j, j ≠ i → pending (visit env i w).m j = true → pending w.m j = true := by
  by_cases hpend : pending w.m i = true
  · have key : ∀ j, pending (visit env i w).m j = true → j ≠ i ∧ pending w.m j = true := by
      intro j hj
      rcases visit_machine env i w hpend with hm | ⟨pre, hm, hi, ho⟩ | ⟨mcall, t, hi, ho, hm | hm⟩
      · rw [hm, pending_setSchedulable] at hj
        by_cases h : j = i
        · subst h
          rw [not_pending_of_noop (by simp)] at hj
          exact absurd hj (by simp)
        · exact ⟨h, by rw [pending_congr (enterSlot_other env i j w h)] at hj; exact hj⟩
      · rw [hm] at hj
        have hj' := hn.1 i pre j hj
        by_cases h : j = i
        · subst h
          rw [not_pending_of_absent (by rw [hi])] at hj'
          exact absurd hj' (by simp)
        · exact ⟨h, by rw [pending_congr (ho j h)] at hj'; exact hj'⟩
      · rw [hm] at hj
        have hj' := hn.2.1 i t mcall j hj
        by_cases h : j = i
        · subst h
          rw [not_pending_of_noop (by rw [hi])] at hj'
          exact absurd hj' (by simp)
        · exact ⟨h, by rw [pending_congr (ho j h)] at hj'; exact hj'⟩
      · rw [hm, pending_setSchedulable, pending_setRax] at hj
        have hj' := hn.2.1 i t mcall j hj
        by_cases h : j = i
        · subst h
          rw [not_pending_of_noop (by rw [hi])] at hj'
          exact absurd hj' (by simp)
        · exact ⟨h, by rw [pending_congr (ho j h)] at hj'; exact hj'⟩
    constructor
    · by_contra hc
      simp only [Bool.not_eq_false] at hc
      exact (key i hc).1 rfl
    · intro j _ hj
      exact (key j hj).2
  · simp only [Bool.not_eq_true] at hpend
    rw [visit_idle env i w hpend]
    exact ⟨hpend, fun j _ hj => hj⟩

theorem visitMany_noRequest (env : Env) (hn : RecordsNoRequest env) :
    ∀ (n index : Nat) (w : World),
      (∀ j, 1 ≤ j → j < index → pending w.m j = false) →
      ∀ j, 1 ≤ j → j < index + n → pending (visitMany env n index w).m j = false := by
  intro n
  induction n with
  | zero => intro index w h j h1 h2; exact h j h1 h2
  | succ n ih =>
    intro index w h j h1 h2
    simp only [visitMany]
    refine ih (index + 1) (visit env index w) (fun k k1 k2 => ?_) j h1 (by omega)
    have hv := visit_noRequest env hn index w
    by_cases hk : k = index
    · subst hk; exact hv.1
    · by_contra hc
      simp only [Bool.not_eq_false] at hc
      have := hv.2 k hk hc
      rw [h k k1 (by omega)] at this
      exact absurd this (by simp)

theorem switchToUserProcess_noRequest (env : Env) (hn : RecordsNoRequest env) (w : World)
    (j : Nat) (h : pending w.m j = false) : pending (switchToUserProcess env w).m j = false := by
  by_contra hc
  simp only [Bool.not_eq_false] at hc
  rw [switchToUserProcess_m] at hc
  split at hc
  · have := hn.2.2.1 _ j (hn.2.2.2 _ j (hn.2.2.1 _ j hc))
    rw [h] at this
    exact absurd this (by simp)
  · have := hn.2.2.1 _ j hc
    rw [h] at this
    exact absurd this (by simp)

theorem visit_syscall_noop (env : Env) (hk : KeepsSyscall env) (i : Nat) (w : World)
    (h : pending w.m i = true) : ((visit env i w).m.processes i).syscallToHandle = .Noop := by
  rcases visit_machine env i w h with hm | ⟨pre, hm, hi, -⟩ | ⟨mcall, t, hi, -, hm | hm⟩
  · rw [hm]; simp
  · rw [hm, hk.1, hi]
  · rw [hm, hk.2.1, hi]
  · rw [hm]; simp [hk.2.1, hi]

theorem visit_keeps_noop (env : Env) (hk : KeepsSyscall env) (i j : Nat) (w : World)
    (h : (w.m.processes j).syscallToHandle = .Noop) :
    ((visit env i w).m.processes j).syscallToHandle = .Noop := by
  by_cases hpend : pending w.m i = true
  · by_cases hj : j = i
    · subst hj
      exact visit_syscall_noop env hk j w hpend
    · rcases visit_machine env i w hpend with hm | ⟨pre, hm, -, ho⟩ | ⟨mcall, t, -, ho, hm | hm⟩
      · rw [hm, setProcess_other _ _ _ _ hj, enterSlot_other _ _ _ _ hj, h]
      · rw [hm, hk.1, ho j hj, h]
      · rw [hm, hk.2.1, ho j hj, h]
      · rw [hm, setProcess_other _ _ _ _ hj, setProcess_other _ _ _ _ hj, hk.2.1, ho j hj, h]
  · simp only [Bool.not_eq_true] at hpend
    rw [visit_idle env i w hpend]
    exact h

theorem visitMany_keeps_noop (env : Env) (hk : KeepsSyscall env) (j : Nat) :
    ∀ (n index : Nat) (w : World), (w.m.processes j).syscallToHandle = .Noop →
      ((visitMany env n index w).m.processes j).syscallToHandle = .Noop := by
  intro n
  induction n with
  | zero => intro _ w h; exact h
  | succ n ih =>
    intro index w h
    simp only [visitMany]
    exact ih (index + 1) _ (visit_keeps_noop env hk index j w h)

theorem switchToUserProcess_keeps_noop (env : Env) (hk : KeepsSyscall env) (j : Nat) (w : World)
    (h : (w.m.processes j).syscallToHandle = .Noop) :
    ((switchToUserProcess env w).m.processes j).syscallToHandle = .Noop := by
  rw [switchToUserProcess_m]
  split
  · rw [hk.2.2.1, hk.2.2.2, hk.2.2.1, h]
  · rw [hk.2.2.1, h]

/-- With collaborators that do not write `syscallToHandle`, a slot that a
scan has handled has the tag `Noop` when the scan is over. -/
theorem scan_handled_noop (env : Env) (hk : KeepsSyscall env) (w : World) (j : Nat)
    (hj : j ∈ capturedSlots (visitManyEvents env 254 1 w)) :
    ((visitMany env 254 1 w).m.processes j).syscallToHandle = .Noop := by
  obtain ⟨h1, h2, h3⟩ := (capturedSlots_scan_mem env w j).1 hj
  have e : 254 = (j - 1) + (1 + (254 - j)) := by omega
  have e1 : 1 + (j - 1) = j := by omega
  rw [e, visitMany_add, visitMany_add, e1]
  apply visitMany_keeps_noop env hk
  simp only [visitMany]
  exact visit_syscall_noop env hk j _ h3

/-- A slot whose tag is `Noop` is not handled by a scan, the collaborators not
writing `syscallToHandle`. -/
theorem scan_skips_noop (env : Env) (hk : KeepsSyscall env) (w : World) (j : Nat)
    (h : (w.m.processes j).syscallToHandle = .Noop) :
    j ∉ capturedSlots (visitManyEvents env 254 1 w) := by
  intro hj
  obtain ⟨_, _, h3⟩ := (capturedSlots_scan_mem env w j).1 hj
  rw [not_pending_of_noop (visitMany_keeps_noop env hk j (j - 1) 1 w h)] at h3
  exact absurd h3 (by simp)

theorem capturedSlots_switch (env : Env) (w : World) :
    capturedSlots ((switchToUserProcess env w).trace.drop w.trace.length) = [] := by
  rw [switchToUserProcess_trace, List.drop_left' rfl]
  split <;> simp [capturedSlots]

/-- C2. For a slot `i` that the scan handles, with tag `t`: the first two
effects are the capture of `t` and the store of `Noop` to
`syscallToHandle[i]`; the selection of the root follows, and every effect of
the branch (probe, log, `Process_destroy`, `userCallHandled`) comes after
these; the branch is chosen by the captured `t` and runs in a world where the
tag of slot `i` is already `Noop`. With collaborators that do not write
`syscallToHandle`, the tag of slot `i` is `Noop` when the visit is over, it
is still `Noop` when the turn has yielded, and a second scan from there
handles none of the slots the first one handled. When, besides, no new
request is recorded, no slot from 1 to 254 is pending after the turn and the
second scan handles no slot at all: it returns the world it was given. -/
theorem request_dispatched_once (env : Env) (w : World) :
    (∀ i, pending w.m i = true →
      visit env i w = branch env i (w.m.processes i).syscallToHandle (enterSlot env i w) ∧
      ((enterSlot env i w).m.processes i).syscallToHandle = .Noop ∧
      (enterSlot env i w).trace = w.trace ++
        [.capture i (w.m.processes i).syscallToHandle, .storeSyscall i .Noop,
         .storeRoot (w.m.processes i).pml4,
         .writeCr3 (sub64 (w.m.processes i).pml4 env.WholePhysicalStart)] ∧
      (visit env i w).trace = (enterSlot env i w).trace ++
        branchEvents env i (w.m.processes i).syscallToHandle (enterSlot env i w) ∧
      capturedSlots ((visit env i w).trace.drop w.trace.length) = [i] ∧
      (KeepsSyscall env → ((visit env i w).m.processes i).syscallToHandle = .Noop)) ∧
    (KeepsSyscall env →
      ∃ w1 w2, kernelThreadIteration env w = some w1 ∧ kernelThreadScan env w1 = some w2 ∧
        (∀ j ∈ capturedSlots (w1.trace.drop w.trace.length),
          (w1.m.processes j).syscallToHandle = .Noop ∧
          j ∉ capturedSlots (w2.trace.drop w1.trace.length)) ∧
        (RecordsNoRequest env →
          (∀ j, 1 ≤ j → j < 255 → pending w1.m j = false) ∧
          w2 = w1 ∧ capturedSlots (w2.trace.drop w1.trace.length) = [])) := by
  constructor
  · intro i hi
    refine ⟨visit_pending env i w hi, by simp, enterSlot_trace env i w, ?_, ?_,
      fun hk => visit_syscall_noop env hk i w hi⟩
    · rw [visit_pending env i w hi, branch_trace]
    · rw [visit_drop, capturedSlots_visitEvents, if_pos hi]
  · intro hk
    refine ⟨switchToUserProcess env (visitMany env 254 1 w),
      visitMany env 254 1 (switchToUserProcess env (visitMany env 254 1 w)),
      kernelThreadIteration_eq env w, kernelThreadScan_eq env _, ?_, ?_⟩
    · intro j hj
      have hsplit : (switchToUserProcess env (visitMany env 254 1 w)).trace.drop w.trace.length =
          visitManyEvents env 254 1 w ++
            (switchToUserProcess env (visitMany env 254 1 w)).trace.drop
              (visitMany env 254 1 w).trace.length := by
        have hsw := switchToUserProcess_trace env (visitMany env 254 1 w)
        generalize (switchToUserProcess env (visitMany env 254 1 w)).trace = tr at hsw ⊢
        rw [hsw, List.drop_left' rfl, visitMany_trace, List.append_assoc, List.drop_left' rfl]
      rw [hsplit, capturedSlots_append, capturedSlots_switch, List.append_nil] at hj
      have hn : ((switchToUserProcess env (visitMany env 254 1 w)).m.processes j).syscallToHandle =
          .Noop :=
        switchToUserProcess_keeps_noop env hk j _ (scan_handled_noop env hk w j hj)
      refine ⟨hn, ?_⟩
      rw [visitMany_trace, List.drop_left' rfl]
      exact scan_skips_noop env hk _ j hn
    · intro hn
      have h1 : ∀ j, 1 ≤ j → j < 255 →
          pending (switchToUserProcess env (visitMany env 254 1 w)).m j = false := by
        intro j j1 j2
        apply switchToUserProcess_noRequest env hn
        exact visitMany_noRequest env hn 254 1 w (fun k k1 k2 => by omega) j j1 (by omega)
      have h2 : visitMany env 254 1 (switchToUserProcess env (visitMany env 254 1 w)) =
          switchToUserProcess env (visitMany env 254 1 w) :=
        visitMany_idle env 254 1 _ (fun j j1 j2 => h1 j j1 (by omega))
      refine ⟨h1, h2, ?_⟩
      rw [h2]
      simp [capturedSlots]

theorem sampleEnv_keepsSyscall : KeepsSyscall sampleEnv := by
  refine ⟨fun i m j => ?_, fun _ _ _ _ => rfl, fun _ _ => rfl, fun m j => ?_⟩
  · by_cases h : j = i
    · subst h; simp [sampleEnv]
    · simp [sampleEnv, setProcess_other _ _ _ _ h]
  · simp only [sampleEnv, specMarkAllProcessessSchedulable]
    split <;> rfl

theorem sampleEnv_recordsNoRequest : RecordsNoRequest sampleEnv := by
  refine ⟨fun i m j h => ?_, fun _ _ _ _ h => h, fun _ _ h => h, fun m j h => ?_⟩
  · have e : pending (sampleEnv.Process_destroy i m) j = pending m j :=
      pending_setProcess_keep i j (fun p => { p with pml4 := 0 }) m (fun _ => rfl) (fun _ => rfl)
    rw [← e]; exact h
  · have e : pending (sampleEnv.markAllProcessessSchedulable m) j = pending m j := by
      simp only [pending, sampleEnv, specMarkAllProcessessSchedulable]
      split <;> rfl
    rw [← e]; exact h

/-- The sample machine with an `ExitProcess` pending in slot 7: after the
turn, a second scan changes nothing. -/
theorem request_dispatched_once_witness :
    (pending (sampleWorld 7 (sampleProcess .ExitProcess 0)).m 7 = true ∧
      KeepsSyscall sampleEnv ∧ RecordsNoRequest sampleEnv) ∧
    ((visit sampleEnv 7 (sampleWorld 7 (sampleProcess .ExitProcess 0))).m.processes 7).syscallToHandle
      = .Noop ∧
    ∃ w1, kernelThreadIteration sampleEnv (sampleWorld 7 (sampleProcess .ExitProcess 0)) = some w1 ∧
      kernelThreadScan sampleEnv w1 = some w1 := by
  have hpend : pending (sampleWorld 7 (sampleProcess .ExitProcess 0)).m 7 = true := by
    simp [pending, sampleWorld, sampleMachine_same, sampleProcess]
  have h := request_dispatched_once sampleEnv (sampleWorld 7 (sampleProcess .ExitProcess 0))
  obtain ⟨w1, w2, h1, h2, _, h4⟩ := h.2 sampleEnv_keepsSyscall
  have h5 := (h4 sampleEnv_recordsNoRequest).2.1
  rw [h5] at h2
  exact ⟨⟨hpend, sampleEnv_keepsSyscall, sampleEnv_recordsNoRequest⟩,
    (h.1 7 hpend).2.2.2.2.2 sampleEnv_keepsSyscall, w1, h1, h2⟩

end Tofita
